import Mathlib

/-!
Shallow embedding of the SimpleProfiler library (src/profiler.h) and proofs
about its hierarchical timer tree, its start/stop state machine and its
report renderer.

Modelling conventions:
* CPU-clock readings (std::clock_t values) are integers; CLOCKS_PER_SEC is
  the POSIX value 1000000.  Wall-clock readings are integers counting
  nanoseconds since the epoch (the code converts wall durations with
  duration_cast<nanoseconds>).  Durations are rationals.
* The pointer-linked Timer tree (shared_ptr parent/prev/next/child) is
  embedded as an arena: the list of all Timer nodes in creation order, with
  pointer fields holding arena indices.  This is faithful because nodes are
  never destroyed or moved.
* Clock readings are external inputs, so every operation that reads a clock
  takes the readings as explicit arguments.
* Output written to the std::ostream sink is collected in a list of lines;
  a profiler constructed without a sink has the flag `sink := false`.
-/

namespace SimpleProfiler

/-- POSIX value of CLOCKS_PER_SEC, the divisor in cpu_time_from_clocks_diff. -/
def CLOCKS_PER_SEC : ℚ := 1000000

/-- cpu_time_from_clocks_diff: double(ct_end - ct_start) / CLOCKS_PER_SEC. -/
def cpu_time_from_clocks_diff (ct_start ct_end : ℤ) : ℚ :=
  ((ct_end - ct_start : ℤ) : ℚ) / CLOCKS_PER_SEC

/-- One timer node (class Profiler::Timer).  The four shared_ptr fields
`parent`, `prev`, `next`, `child` are arena indices. -/
structure Timer where
  ncalls : ℕ
  clock_start : ℤ
  wt_start : ℤ
  cpu_time_accu : ℚ
  wall_time_accu : ℚ
  cpu_time_last : ℚ
  wall_time_last : ℚ
  name : String
  note : String
  parent : Option ℕ
  prev : Option ℕ
  next : Option ℕ
  child : Option ℕ
deriving DecidableEq

/-- The Timer constructor: everything zero / empty, pointers null. -/
def Timer.mkNew (tname tnote : String) : Timer :=
  { ncalls := 0, clock_start := 0, wt_start := 0, cpu_time_accu := 0,
    wall_time_accu := 0, cpu_time_last := 0, wall_time_last := 0,
    name := tname, note := tnote, parent := none, prev := none,
    next := none, child := none }

/-- Timer::is_on(): clock_start != 0. -/
def Timer.is_on (t : Timer) : Prop := t.clock_start ≠ 0

instance (t : Timer) : Decidable t.is_on :=
  inferInstanceAs (Decidable (t.clock_start ≠ 0))

/-- Timer::stop(): no-op when the timer is off; otherwise add the CPU
duration (in seconds) and the wall duration (nanoseconds times 1e-6) to the
accumulators, store them as the last values, and reset the start readings. -/
def Timer.stop (t : Timer) (c w : ℤ) : Timer :=
  if t.is_on then
    let cpu : ℚ := cpu_time_from_clocks_diff t.clock_start c
    let wall : ℚ := ((w - t.wt_start : ℤ) : ℚ) * (1 / 1000000)
    { t with cpu_time_last := cpu, cpu_time_accu := t.cpu_time_accu + cpu,
             wall_time_last := wall, wall_time_accu := t.wall_time_accu + wall,
             wt_start := 0, clock_start := 0 }
  else t

/-- Timer::start(): implicitly stop a running timer, then bump ncalls,
capture the start readings and clear the last-call durations. -/
def Timer.start (t : Timer) (c w : ℤ) : Timer :=
  let t1 := if t.is_on then t.stop c w else t
  { t1 with ncalls := t1.ncalls + 1, clock_start := c, wt_start := w,
            cpu_time_last := 0, wall_time_last := 0 }

/-- The navigator state of the profiler: the arena of all nodes ever
created, the root index and the cursor ("current") index. -/
structure Nav where
  arena : List Timer
  root : Option ℕ
  current : Option ℕ
deriving DecidableEq

/-- Follow a node's `next` pointer (none for an invalid index). -/
def step (a : List Timer) (j : ℕ) : Option ℕ :=
  match a[j]? with
  | none => none
  | some t => t.next

/-- A node's `child` pointer (none for an invalid index). -/
def childOf (a : List Timer) (i : ℕ) : Option ℕ :=
  match a[i]? with
  | none => none
  | some t => t.child

/-- A node's `parent` pointer (none for an invalid index). -/
def parentOf (a : List Timer) (i : ℕ) : Option ℕ :=
  match a[i]? with
  | none => none
  | some t => t.parent

/-- Profiler::search_timer_in_hierarchy: check the node itself, then
recursively its child subtree, then its next sibling.  Fuel-based; the
profiler always supplies enough fuel (arena length + 1 suffices because
child/next indices strictly increase in every reachable state). -/
def searchTimer (a : List Timer) : ℕ → Option ℕ → String → Option ℕ
  | 0, _, _ => none
  | _ + 1, none, _ => none
  | fuel + 1, some i, tname =>
    match a[i]? with
    | none => none
    | some t =>
      if t.name = tname then some i
      else
        match searchTimer a fuel t.child tname with
        | some r => some r
        | none => searchTimer a fuel t.next tname

/-- Profiler::find_timer_in_hierarchy: search starting at the cursor. -/
def Nav.find (n : Nav) (tname : String) : Option ℕ :=
  searchTimer n.arena (n.arena.length + 1) n.current tname

/-- The `while (sibling->next) sibling = sibling->next;` loop of
Profiler::add: walk `next` pointers to the last sibling. -/
def walkLast (a : List Timer) : ℕ → ℕ → ℕ
  | 0, j => j
  | fuel + 1, j =>
    match step a j with
    | none => j
    | some nx => walkLast a fuel nx

/-- The arena after the attachment step of Profiler::add: when the tree has
a root and a cursor, the new node (index = arena length) is recorded either
as the cursor's first child or as the `next` of the cursor's last child. -/
def Nav.addBase (n : Nav) : List Timer :=
  match n.root with
  | none => n.arena
  | some _ =>
    match n.current with
    | none => n.arena
    | some c =>
      match n.arena[c]? with
      | none => n.arena
      | some t =>
        match t.child with
        | none => n.arena.set c { t with child := some n.arena.length }
        | some k =>
          let w := walkLast n.arena n.arena.length k
          match n.arena[w]? with
          | none => n.arena
          | some lt => n.arena.set w { lt with next := some n.arena.length }

/-- The parent pointer given to the new node by Profiler::add (the cursor,
when the tree has a root and a cursor; otherwise null). -/
def Nav.addParent (n : Nav) : Option ℕ :=
  match n.root with
  | none => none
  | some _ => n.current

/-- The prev pointer given to the new node by Profiler::add (the previous
last sibling, in the append-after-sibling branch only). -/
def Nav.addPrev (n : Nav) : Option ℕ :=
  match n.root with
  | none => none
  | some _ =>
    match n.current with
    | none => none
    | some c =>
      match n.arena[c]? with
      | none => none
      | some t =>
        match t.child with
        | none => none
        | some k => some (walkLast n.arena n.arena.length k)

/-- Profiler::add: allocate a new node; it becomes the root if there is
none, is attached under the cursor if there is one (and a root), and is
left unattached when the tree has a root but no cursor.  The new node
always becomes the cursor. -/
def Nav.add (n : Nav) (tname tnote : String) : Nav :=
  { arena := n.addBase ++
      [{ Timer.mkNew tname tnote with parent := n.addParent, prev := n.addPrev }],
    root := match n.root with
            | none => some n.arena.length
            | some r => some r,
    current := some n.arena.length }

/-- Update the node at index `i` (no-op on an invalid index). -/
def modifyAt (a : List Timer) (i : ℕ) (f : Timer → Timer) : List Timer :=
  match a[i]? with
  | none => a
  | some t => a.set i (f t)

/-- The navigation part of Profiler::start: find the name from the cursor;
create a node if absent, otherwise move the cursor to the match; then start
the cursor's timer with the supplied clock readings. -/
def Nav.start (n : Nav) (tname tnote : String) (c w : ℤ) : Nav :=
  let n1 := match n.find tname with
            | none => n.add tname tnote
            | some i => { n with current := some i }
  { n1 with arena := match n1.current with
                     | none => n1.arena
                     | some i => modifyAt n1.arena i (fun t => t.start c w) }

/-- What Profiler::stop reports to the sink. -/
inductive StopEvent where
  | stopped (tname : String)
  | mismatch (tname curname : String)
  | noactive
deriving DecidableEq

/-- The navigation part of Profiler::stop: with no cursor, warn; with a
cursor whose name matches, stop its timer and move the cursor to its
parent; otherwise warn about the mismatch.  The invalid-index branch is
unreachable from any reachable state (in C++ it would dereference a
dangling pointer) and leaves the state unchanged with no event. -/
def Nav.stop (n : Nav) (tname : String) (c w : ℤ) : Nav × Option StopEvent :=
  match n.current with
  | none => (n, some StopEvent.noactive)
  | some i =>
    match n.arena[i]? with
    | none => (n, none)
    | some t =>
      if t.name = tname then
        ({ n with arena := modifyAt n.arena i (fun u => u.stop c w),
                  current := t.parent }, some (StopEvent.stopped tname))
      else (n, some (StopEvent.mismatch tname t.name))

/-- The whole profiler: navigator state, whether an output sink is bound
(p_os != nullptr), the lines written to the sink, and the indent width. -/
structure Profiler where
  nav : Nav
  sink : Bool
  out : List String
  indent : ℕ
deriving DecidableEq

/-- The two constructors: Profiler() (silent, withSink = false) and
Profiler(std::ostream&) (verbose, withSink = true). -/
def Profiler.init (withSink : Bool) : Profiler :=
  { nav := { arena := [], root := none, current := none },
    sink := withSink, out := [], indent := 1 }

/-- Timestamp prefix of a log line.  The wall-clock formatting of
get_timestamp is an external concern; the model renders the raw reading. -/
def get_timestamp (w : ℤ) : String := "[" ++ toString w ++ "]"

def logStartLine (w : ℤ) (tname : String) : String :=
  get_timestamp w ++ " Timer start: " ++ tname

def logStopLine (w : ℤ) (tname : String) : String :=
  get_timestamp w ++ " Timer stop:  " ++ tname

def warnMismatchLine (tname curname : String) : String :=
  "Warning: Attempting to stop timer \x27" ++ tname ++
    "\x27 but current active timer is \x27" ++ curname ++ "\x27"

def warnNoActiveLine : String :=
  "Warning: No timer is currently active"

/-- Profiler::start: navigate (find / add / move cursor) and start the
timer; a sink-bound profiler also writes a timestamped start line. -/
def Profiler.start (p : Profiler) (tname tnote : String) (c w : ℤ) : Profiler :=
  { p with nav := p.nav.start tname tnote c w,
           out := p.out ++ (if p.sink then [logStartLine w tname] else []) }

/-- The line(s) Profiler::stop writes for each outcome. -/
def eventLines (w : ℤ) : Option StopEvent → List String
  | none => []
  | some (StopEvent.stopped tname) => [logStopLine w tname]
  | some (StopEvent.mismatch tname curname) => [warnMismatchLine tname curname]
  | some StopEvent.noactive => [warnNoActiveLine]

/-- Profiler::stop: delegate to the navigator; a sink-bound profiler also
writes the stop line or the applicable warning. -/
def Profiler.stop (p : Profiler) (tname : String) (c w : ℤ) : Profiler :=
  { p with nav := (p.nav.stop tname c w).1,
           out := p.out ++ (if p.sink then eventLines w (p.nav.stop tname c w).2 else []) }

/-- Profiler::get_cpu_time_last: the found node's cpu_time_last, and -1.0
when the cursor-relative search fails.  (The inner invalid-index branch is
unreachable: the search only returns indices present in the arena.) -/
def Profiler.get_cpu_time_last (p : Profiler) (tname : String) : ℚ :=
  match p.nav.find tname with
  | some i =>
    match p.nav.arena[i]? with
    | some t => t.cpu_time_last
    | none => -1
  | none => -1

/-- Profiler::get_wall_time_last: the found node's wall_time_last, and 0.0
when the cursor-relative search fails. -/
def Profiler.get_wall_time_last (p : Profiler) (tname : String) : ℚ :=
  match p.nav.find tname with
  | some i =>
    match p.nav.arena[i]? with
    | some t => t.wall_time_last
    | none => 0
  | none => 0

/-- One rendered row of the report: the data get_profile_string_of_timer
prints for one node, plus the nesting level it is printed at. -/
structure Row where
  name : String
  note : String
  ncalls : ℕ
  cpu : ℚ
  wall : ℚ
  level : ℕ
deriving DecidableEq

/-- The traversal of Profiler::get_profile_string_of_timer, as the list of
rendered rows: print the node itself, recurse into the child subtree at
level + 1 only when verbose > level, then into the next sibling at the same
level when verbose >= level. -/
def rowsOf (a : List Timer) : ℕ → Option ℕ → ℕ → ℤ → List Row
  | 0, _, _, _ => []
  | _ + 1, none, _, _ => []
  | fuel + 1, some i, level, verbose =>
    match a[i]? with
    | none => []
    | some t =>
      { name := t.name, note := t.note, ncalls := t.ncalls,
        cpu := t.cpu_time_accu, wall := t.wall_time_accu, level := level } ::
        ((if (level : ℤ) < verbose then rowsOf a fuel t.child (level + 1) verbose else []) ++
         (if (level : ℤ) ≤ verbose then rowsOf a fuel t.next level verbose else []))

/-- Spec-side definition for the depth-limit claim: the full pre-order
traversal of the same tree with no depth bound. -/
def preorderRows (a : List Timer) : ℕ → Option ℕ → ℕ → List Row
  | 0, _, _ => []
  | _ + 1, none, _ => []
  | fuel + 1, some i, level =>
    match a[i]? with
    | none => []
    | some t =>
      { name := t.name, note := t.note, ncalls := t.ncalls,
        cpu := t.cpu_time_accu, wall := t.wall_time_accu, level := level } ::
        (preorderRows a fuel t.child (level + 1) ++ preorderRows a fuel t.next level)

def spaces (k : ℕ) : String := String.mk (List.replicate k ' ')

/-- std::setw(k) with std::left: pad on the right to width k. -/
def padR (s : String) (k : ℕ) : String := s ++ spaces (k - s.length)

/-- The banner helper: k copies of the character c. -/
def banner (c : Char) (k : ℕ) : String := String.mk (List.replicate k c)

def zpad4 (s : String) : String :=
  String.mk (List.replicate (4 - s.length) '0') ++ s

/-- std::fixed << std::setprecision(4) on a non-negative rational. -/
def fixed4abs (q : ℚ) : String :=
  let m : ℕ := (Int.floor (q * 10000 + 1 / 2)).toNat
  toString (m / 10000) ++ "." ++ zpad4 (toString (m % 10000))

/-- std::fixed << std::setprecision(4). -/
def fixed4 (q : ℚ) : String :=
  if q < 0 then "-" ++ fixed4abs (-q) else fixed4abs q

/-- One output line of get_profile_string_of_timer: indented label (note,
falling back to name), ncalls, and the two indented accumulated times. -/
def formatRow (ind : ℕ) (r : Row) : String :=
  let indent_s := spaces (ind * r.level)
  let label := indent_s ++ (if r.note = "" then r.name else r.note)
  padR label 49 ++ " " ++ padR (toString r.ncalls) 12 ++ " " ++
    padR (indent_s ++ fixed4 r.cpu) 18 ++ " " ++
    padR (indent_s ++ fixed4 r.wall) 18 ++ "\n"

/-- The header row of Profiler::get_profile_string. -/
def headerLine : String :=
  padR "Entry" 49 ++ " " ++ padR "#calls" 12 ++ " " ++
    padR "CPU time (s)" 18 ++ " " ++ padR "Wall time (s)" 18 ++ "\n"

/-- Profiler::get_profile_string.  The C++ code unconditionally passes
`root` to get_profile_string_of_timer, dereferencing it; on a profiler that
never created a node the root is null and the rendering is undefined, so
the embedding returns none in that case. -/
def Profiler.get_profile_string (p : Profiler) (verbose : ℤ) : Option String :=
  match p.nav.root with
  | none => none
  | some r =>
    some (banner '-' 100 ++ "\n" ++ headerLine ++ banner '-' 100 ++ "\n" ++
      String.join ((rowsOf p.nav.arena (p.nav.arena.length + 1) (some r) 0 verbose).map
        (formatRow p.indent)) ++
      banner '-' 100 ++ "\n")

/-- Profiler::display: write the report to the sink if one is bound. -/
def Profiler.display (p : Profiler) (verbose : ℤ) : Profiler :=
  { p with out := p.out ++
      (if p.sink then (p.get_profile_string verbose).toList else []) }

/-- One external operation on the profiler facade, carrying the CPU-clock
and wall-clock readings taken while it executes. -/
inductive Op where
  | start (tname tnote : String) (c w : ℤ)
  | stop (tname : String) (c w : ℤ)
deriving DecidableEq

def Op.isStart : Op → Bool
  | Op.start _ _ _ _ => true
  | Op.stop _ _ _ => false

def applyOp (p : Profiler) (op : Op) : Profiler :=
  match op with
  | Op.start tname tnote c w => p.start tname tnote c w
  | Op.stop tname c w => p.stop tname c w

/-- Run a sequence of start/stop operations. -/
def runOps (ops : List Op) (p : Profiler) : Profiler := ops.foldl applyOp p

/-- The sibling chain hanging off an optional head pointer, collected by
following `next` links (fuel-bounded). -/
def chainF (a : List Timer) : ℕ → Option ℕ → List ℕ
  | 0, _ => []
  | _ + 1, none => []
  | fuel + 1, some j => j :: chainF a fuel (step a j)

/-- The child chain of node i: its first child followed by that child's
later siblings. -/
def chain (a : List Timer) (i : ℕ) : List ℕ :=
  chainF a a.length (childOf a i)

/-- The nodes whose parent pointer is i, in creation order. -/
def childrenOf (a : List Timer) (i : ℕ) : List ℕ :=
  (List.range a.length).filter (fun j => parentOf a j == some i)

/-- Structural well-formedness of the arena: child and next pointers go to
strictly later (valid) nodes, parent pointers to strictly earlier ones. -/
def StructOk (a : List Timer) : Prop :=
  ∀ i t, a[i]? = some t →
    (∀ c, t.child = some c → i < c ∧ c < a.length) ∧
    (∀ nx, t.next = some nx → i < nx ∧ nx < a.length) ∧
    (∀ q, t.parent = some q → q < i)

/-- The navigator invariant: structural well-formedness, a valid cursor,
and every child chain listing exactly the nodes whose parent pointer names
its head node. -/
def NavOk (n : Nav) : Prop :=
  StructOk n.arena ∧
  (∀ c, n.current = some c → c < n.arena.length) ∧
  (∀ i, chain n.arena i = childrenOf n.arena i)

/-- Reachability from the root along child chains. -/
inductive ReachFromRoot (n : Nav) : ℕ → Prop where
  | root : ∀ r, n.root = some r → ReachFromRoot n r
  | child : ∀ i j, ReachFromRoot n i → j ∈ chain n.arena i → ReachFromRoot n j

/-- The navigator transition performed by one facade operation. -/
def navApply (op : Op) (n : Nav) : Nav :=
  match op with
  | Op.start tname tnote c w => n.start tname tnote c w
  | Op.stop tname c w => (n.stop tname c w).1

/-- The clock readings observed during one start/stop round. -/
structure Interval where
  cs : ℤ
  ws : ℤ
  ce : ℤ
  we : ℤ
deriving DecidableEq

/-- One completed round: start the region, then stop it. -/
def roundTrip (tname : String) (p : Profiler) (iv : Interval) : Profiler :=
  (p.start tname "" iv.cs iv.ws).stop tname iv.ce iv.we

/-- The CPU duration the code measures for one round. -/
def cpuDur (iv : Interval) : ℚ := cpu_time_from_clocks_diff iv.cs iv.ce

/-- The wall duration the code measures for one round (milliseconds). -/
def wallDur (iv : Interval) : ℚ := ((iv.we - iv.ws : ℤ) : ℚ) * (1 / 1000000)

/-- The outer region's node while it is running with the inner region as
its only child. -/
def c7outer (tnO : String) (c0 w0 : ℤ) : Timer :=
  ⟨1, c0, w0, 0, 0, 0, 0, tnO, "", none, none, none, some 1⟩

/-- The inner region's node. -/
def c7inner (tnI : String) (m : ℕ) (cst wst : ℤ) (aC aW lC lW : ℚ) : Timer :=
  ⟨m, cst, wst, aC, aW, lC, lW, tnI, "", some 0, none, none, none⟩

/-- The profiler state between rounds: outer running at the cursor, inner
stopped with accumulated statistics. -/
def c7state (tnO tnI : String) (c0 w0 : ℤ) (n : ℕ) (aC aW lC lW : ℚ) : Profiler :=
  { nav := { arena := [c7outer tnO c0 w0, c7inner tnI n 0 0 aC aW lC lW],
             root := some 0, current := some 0 },
    sink := false, out := [], indent := 1 }

/-- The outer region's node right after the very first start, before the
inner region exists. -/
def c7solo (tnO : String) (c0 w0 : ℤ) : Timer :=
  ⟨1, c0, w0, 0, 0, 0, 0, tnO, "", none, none, none, none⟩

/-- Hypothesis of the mismatched-stop claim: either no cursor is active, or
the cursor node's name differs from the name being stopped. -/
def stopMismatch (p : Profiler) (tname : String) : Bool :=
  match p.nav.current with
  | none => true
  | some i =>
    match p.nav.arena[i]? with
    | none => true
    | some t => t.name != tname

/-- The run of the scoped re-entry scenario up to start of C. -/
def c2run5 : Profiler :=
  runOps [Op.start "A" "" 1 1, Op.start "B" "" 2 2, Op.stop "B" 3 3,
    Op.stop "A" 4 4, Op.start "C" "" 5 5] (Profiler.init false)

/-- The scoped re-entry scenario after the second start of A. -/
def c2run6 : Profiler := applyOp c2run5 (Op.start "A" "" 6 6)

/-- A verbose profiler with region A active. -/
def c5p : Profiler := (Profiler.init true).start "A" "" 1 1

/-- Start and stop a top-level region, then start another one: the second
node is created while no cursor is active. -/
def c6run : Profiler :=
  runOps [Op.start "hello" "" 1 1, Op.stop "hello" 2 2, Op.start "world" "" 3 3]
    (Profiler.init false)

/-- Two complete top-level rounds of the same region name. -/
def c7run : Profiler :=
  runOps [Op.start "R" "" 1 1, Op.stop "R" 2 2, Op.start "R" "" 3 3, Op.stop "R" 4 4]
    (Profiler.init false)

/-- A three-level tree: root with two children, the first child having one
grandchild. -/
def threeLevel : List Timer :=
  [{ Timer.mkNew "root" "" with child := some 1 },
   { Timer.mkNew "c1" "" with parent := some 0, next := some 2, child := some 3 },
   { Timer.mkNew "c2" "" with parent := some 0, prev := some 1 },
   { Timer.mkNew "g1" "" with parent := some 1 }]

/-! ### Basic lemmas about the sibling-chain machinery -/

theorem step_none_of_ge {a : List Timer} {j : ℕ} (h : a.length ≤ j) :
    step a j = none := by
  unfold step
  rw [List.getElem?_eq_none h]

theorem step_bounds {a : List Timer} (hS : StructOk a) {j nx : ℕ}
    (h : step a j = some nx) : j < nx ∧ nx < a.length := by
  unfold step at h
  cases ha : a[j]? with
  | none => rw [ha] at h; exact absurd h (by simp)
  | some t =>
    rw [ha] at h
    exact (hS j t ha).2.1 nx h

theorem chainF_none (a : List Timer) (f : ℕ) : chainF a f none = [] := by
  cases f <;> rfl

theorem chainF_succ (a : List Timer) (f j : ℕ) :
    chainF a (f + 1) (some j) = j :: chainF a f (step a j) := rfl

theorem chainF_fuel {a : List Timer} (hS : StructOk a) :
    ∀ f g j, a.length - j < f → a.length - j < g →
      chainF a f (some j) = chainF a g (some j) := by
  intro f
  induction f with
  | zero => intro g j hf _; omega
  | succ f ih =>
    intro g j hf hg
    cases g with
    | zero => omega
    | succ g =>
      rw [chainF_succ, chainF_succ]
      congr 1
      cases hst : step a j with
      | none => rw [chainF_none, chainF_none]
      | some nx =>
        have hb := step_bounds hS hst
        exact ih g nx (by omega) (by omega)

theorem chainF_congr {a b : List Timer} (h : ∀ j, step a j = step b j) :
    ∀ f o, chainF a f o = chainF b f o := by
  intro f
  induction f with
  | zero => intro o; rfl
  | succ f ih =>
    intro o
    cases o with
    | none => rfl
    | some j => rw [chainF_succ, chainF_succ, h j, ih]

theorem chainF_mem_lt {a : List Timer} (hS : StructOk a) :
    ∀ f j m, j < a.length → m ∈ chainF a f (some j) → m < a.length := by
  intro f
  induction f with
  | zero => intro j m _ hm; exact absurd hm (by simp [chainF])
  | succ f ih =>
    intro j m hj hm
    rw [chainF_succ] at hm
    rcases List.mem_cons.mp hm with h | h
    · omega
    · cases hst : step a j with
      | none => rw [hst, chainF_none] at h; exact absurd h (by simp)
      | some nx =>
        rw [hst] at h
        exact ih nx m (step_bounds hS hst).2 h

theorem walkLast_step_none {a : List Timer} (hS : StructOk a) :
    ∀ f j, a.length - j < f → step a (walkLast a f j) = none := by
  intro f
  induction f with
  | zero => intro j hf; omega
  | succ f ih =>
    intro j hf
    show step a (walkLast a (f + 1) j) = none
    unfold walkLast
    cases hst : step a j with
    | none => exact hst
    | some nx =>
      have hb := step_bounds hS hst
      exact ih nx (by omega)

theorem walkLast_mem {a : List Timer} (hS : StructOk a) :
    ∀ f j, a.length - j < f → walkLast a f j ∈ chainF a f (some j) := by
  intro f
  induction f with
  | zero => intro j hf; omega
  | succ f ih =>
    intro j hf
    rw [chainF_succ]
    show walkLast a (f + 1) j ∈ _
    unfold walkLast
    cases hst : step a j with
    | none => exact List.mem_cons_self _ _
    | some nx =>
      have hb := step_bounds hS hst
      exact List.mem_cons_of_mem _ (ih nx (by omega))

theorem walkLast_lt {a : List Timer} (hS : StructOk a) :
    ∀ f j, j < a.length → walkLast a f j < a.length := by
  intro f
  induction f with
  | zero => intro j hj; exact hj
  | succ f ih =>
    intro j hj
    show walkLast a (f + 1) j < _
    unfold walkLast
    cases hst : step a j with
    | none => exact hj
    | some nx => exact ih nx (step_bounds hS hst).2

theorem mem_childrenOf {a : List Timer} {i j : ℕ} :
    j ∈ childrenOf a i ↔ j < a.length ∧ parentOf a j = some i := by
  simp [childrenOf, List.mem_filter, List.mem_range]

theorem childrenOf_nodup (a : List Timer) (i : ℕ) : (childrenOf a i).Nodup :=
  (List.nodup_range a.length).filter _

theorem lt_of_getElem?_some {a : List Timer} {j : ℕ} {t : Timer}
    (h : a[j]? = some t) : j < a.length :=
  (List.getElem?_eq_some.mp h).1

theorem parentOf_bound {a : List Timer} (hS : StructOk a) {j q : ℕ}
    (h : parentOf a j = some q) : q < j ∧ j < a.length := by
  unfold parentOf at h
  cases ha : a[j]? with
  | none => rw [ha] at h; exact absurd h (by simp)
  | some t =>
    rw [ha] at h
    exact ⟨(hS j t ha).2.2 q h, lt_of_getElem?_some ha⟩

theorem childOf_bound {a : List Timer} (hS : StructOk a) {i k : ℕ}
    (h : childOf a i = some k) : i < k ∧ k < a.length := by
  unfold childOf at h
  cases ha : a[i]? with
  | none => rw [ha] at h; exact absurd h (by simp)
  | some t =>
    rw [ha] at h
    exact (hS i t ha).1 k h

/-- Grafting: if `b` equals `a` except that the terminal sibling `w` of a
chain now points to a fresh terminal node `newIdx`, the chain in `b` is the
old chain with `newIdx` appended. -/
theorem chainF_graft {a b : List Timer} (hS : StructOk a) {w newIdx : ℕ}
    (hstepb : ∀ j, j < a.length → j ≠ w → step b j = step a j)
    (hstepw : step b w = some newIdx)
    (hstepnew : step b newIdx = none)
    (hwnone : step a w = none) :
    ∀ f j, j < a.length → a.length - j < f → walkLast a f j = w →
      chainF b (f + 1) (some j) = chainF a f (some j) ++ [newIdx] := by
  intro f
  induction f with
  | zero => intro j _ hf; omega
  | succ f ih =>
    intro j hj hf hwalk
    have hwalk' := hwalk
    unfold walkLast at hwalk'
    cases hst : step a j with
    | none =>
      rw [hst] at hwalk'
      subst hwalk'
      rw [chainF_succ, chainF_succ, hstepw, hst, chainF_none]
      cases f with
      | zero => omega
      | succ f => rw [chainF_succ, hstepnew, chainF_none]; rfl
    | some nx =>
      rw [hst] at hwalk'
      have hb := step_bounds hS hst
      have hjw : j ≠ w := by
        intro hjw
        rw [hjw, hwnone] at hst
        exact absurd hst (by simp)
      rw [chainF_succ, chainF_succ, hstepb j hj hjw, hst,
        ih nx hb.2 (by omega) hwalk', List.cons_append]

/-- Chains avoiding the modified node are unchanged. -/
theorem chainF_avoid {a b : List Timer} (hS : StructOk a) {w : ℕ}
    (hstepb : ∀ j, j < a.length → j ≠ w → step b j = step a j) :
    ∀ f j, j < a.length → (∀ m, m ∈ chainF a f (some j) → m ≠ w) →
      chainF b f (some j) = chainF a f (some j) := by
  intro f
  induction f with
  | zero => intro j _ _; rfl
  | succ f ih =>
    intro j hj hmem
    have hjw : j ≠ w := hmem j (by rw [chainF_succ]; exact List.mem_cons_self _ _)
    rw [chainF_succ, chainF_succ, hstepb j hj hjw]
    congr 1
    cases hst : step a j with
    | none => rw [chainF_none, chainF_none]
    | some nx =>
      exact ih nx (step_bounds hS hst).2
        (fun m hm => hmem m (by rw [chainF_succ, hst]; exact List.mem_cons_of_mem _ hm))

theorem childrenOf_congr {a b : List Timer} (hlen : b.length = a.length)
    (h : ∀ j, j < a.length → parentOf b j = parentOf a j) (i : ℕ) :
    childrenOf b i = childrenOf a i := by
  unfold childrenOf
  rw [hlen]
  exact List.filter_congr (fun j hj => by rw [h j (List.mem_range.mp hj)])

theorem childrenOf_ge {a : List Timer} (hS : StructOk a) {i : ℕ}
    (h : a.length ≤ i) : childrenOf a i = [] := by
  rw [List.eq_nil_iff_forall_not_mem]
  intro j hj
  obtain ⟨hjl, hp⟩ := mem_childrenOf.mp hj
  have := parentOf_bound hS hp
  omega

/-- Splitting the children of a one-longer arena: the new node at index
`a.length` contributes itself exactly to its parent pointer's chain. -/
theorem childrenOf_concat {a b : List Timer} (hlen : b.length = a.length + 1)
    (h : ∀ j, j < a.length → parentOf b j = parentOf a j) (i : ℕ) :
    childrenOf b i = childrenOf a i ++
      (if parentOf b a.length = some i then [a.length] else []) := by
  unfold childrenOf
  rw [hlen, List.range_succ, List.filter_append,
    List.filter_congr (fun j hj => by rw [h j (List.mem_range.mp hj)])]
  congr 1
  by_cases hp : parentOf b a.length = some i
  · simp [hp]
  · simp [List.filter_cons, hp]

/-- Appending an unattached node (the root-creation and the orphan branch
of Profiler::add) preserves the navigator invariant. -/
theorem navOk_append_plain {a : List Timer} (hS : StructOk a)
    (hEq : ∀ i, chain a i = childrenOf a i) {x : Timer}
    (hxc : x.child = none) (hxn : x.next = none) (hxp : x.parent = none)
    (r : Option ℕ) :
    NavOk { arena := a ++ [x], root := r, current := some a.length } := by
  have hgetlt : ∀ j, j < a.length → (a ++ [x])[j]? = a[j]? :=
    fun j hj => List.getElem?_append_left hj
  have hgetlen : (a ++ [x])[a.length]? = some x := List.getElem?_concat_length a x
  have hgetgt : ∀ j, a.length < j → (a ++ [x])[j]? = none :=
    fun j hj => List.getElem?_eq_none (by simp; omega)
  have hsteps : ∀ j, step (a ++ [x]) j = step a j := by
    intro j
    rcases lt_trichotomy j a.length with h | h | h
    · unfold step; rw [hgetlt j h]
    · subst h; unfold step
      rw [hgetlen, List.getElem?_eq_none (le_refl a.length)]
      exact hxn
    · unfold step; rw [hgetgt j h, List.getElem?_eq_none (by omega)]
  have hS' : StructOk (a ++ [x]) := by
    intro j u hju
    rcases lt_trichotomy j a.length with h | h | h
    · rw [hgetlt j h] at hju
      obtain ⟨h1, h2, h3⟩ := hS j u hju
      refine ⟨fun c hc => ?_, fun nx hnx => ?_, h3⟩
      · have := h1 c hc; simp only [List.length_append, List.length_singleton]; omega
      · have := h2 nx hnx; simp only [List.length_append, List.length_singleton]; omega
    · subst h
      rw [hgetlen] at hju
      injection hju with hju
      subst hju
      exact ⟨fun c hc => absurd hc (by rw [hxc]; simp),
             fun nx hnx => absurd hnx (by rw [hxn]; simp),
             fun q hq => absurd hq (by rw [hxp]; simp)⟩
    · rw [hgetgt j h] at hju
      exact absurd hju (by simp)
  have hpj : ∀ j, j < a.length → parentOf (a ++ [x]) j = parentOf a j :=
    fun j hj => by unfold parentOf; rw [hgetlt j hj]
  have hplen : parentOf (a ++ [x]) a.length = none := by
    unfold parentOf; rw [hgetlen]; exact hxp
  have hchildren : ∀ i, childrenOf (a ++ [x]) i = childrenOf a i := by
    intro i
    rw [childrenOf_concat (by simp) hpj i, hplen]
    simp
  have hchain : ∀ i, chain (a ++ [x]) i = childrenOf a i := by
    intro i
    rcases Nat.lt_or_ge i a.length with h | h
    · have hco : childOf (a ++ [x]) i = childOf a i := by
        unfold childOf; rw [hgetlt i h]
      unfold chain
      rw [hco]
      cases hk : childOf a i with
      | none =>
        rw [chainF_none, ← hEq i]
        unfold chain
        rw [hk, chainF_none]
      | some k =>
        have hb := childOf_bound hS hk
        rw [chainF_congr hsteps,
          show (a ++ [x]).length = a.length + 1 by simp,
          chainF_fuel hS (a.length + 1) a.length k (by omega) (by omega), ← hEq i]
        unfold chain
        rw [hk]
    · have hco : childOf (a ++ [x]) i = none := by
        unfold childOf
        rcases Nat.eq_or_lt_of_le h with h1 | h1
        · rw [← h1, hgetlen]; exact hxc
        · rw [hgetgt i h1]
      unfold chain
      rw [hco, chainF_none, childrenOf_ge hS h]
  refine ⟨hS', ?_, ?_⟩
  · intro c hc
    injection hc with hc
    subst hc
    simp
  · intro i
    show chain (a ++ [x]) i = childrenOf (a ++ [x]) i
    rw [hchain i, hchildren i]

/-- Attaching the new node as the cursor's first child (the childless
cursor branch of Profiler::add) preserves the navigator invariant. -/
theorem navOk_append_firstChild {a : List Timer} (hS : StructOk a)
    (hEq : ∀ i, chain a i = childrenOf a i) {c : ℕ} {t : Timer}
    (hct : a[c]? = some t) (htk : t.child = none) {x : Timer}
    (hxc : x.child = none) (hxn : x.next = none) (hxp : x.parent = some c)
    (r : Option ℕ) :
    NavOk { arena := a.set c { t with child := some a.length } ++ [x],
            root := r, current := some a.length } := by
  have hc : c < a.length := lt_of_getElem?_some hct
  have hbase : (a.set c { t with child := some a.length }).length = a.length :=
    List.length_set a c _
  have hgetne : ∀ j, j < a.length → j ≠ c →
      (a.set c { t with child := some a.length } ++ [x])[j]? = a[j]? := by
    intro j hj hjc
    rw [List.getElem?_append_left (by rw [hbase]; exact hj),
      List.getElem?_set_ne (fun he => hjc he.symm)]
  have hgetc : (a.set c { t with child := some a.length } ++ [x])[c]? =
      some { t with child := some a.length } := by
    rw [List.getElem?_append_left (by rw [hbase]; exact hc)]
    exact List.getElem?_set_self hc
  have hgetlen : (a.set c { t with child := some a.length } ++ [x])[a.length]? = some x := by
    have h := List.getElem?_concat_length (a.set c { t with child := some a.length }) x
    rwa [hbase] at h
  have hgetgt : ∀ j, a.length < j →
      (a.set c { t with child := some a.length } ++ [x])[j]? = none :=
    fun j hj => List.getElem?_eq_none (by simp [hbase]; omega)
  have hsteps : ∀ j, step (a.set c { t with child := some a.length } ++ [x]) j = step a j := by
    intro j
    rcases lt_trichotomy j a.length with h | h | h
    · by_cases hjc : j = c
      · subst hjc
        unfold step
        rw [hgetc, hct]
      · unfold step; rw [hgetne j h hjc]
    · subst h; unfold step
      rw [hgetlen, List.getElem?_eq_none (le_refl a.length)]
      exact hxn
    · unfold step; rw [hgetgt j h, List.getElem?_eq_none (by omega)]
  have hS' : StructOk (a.set c { t with child := some a.length } ++ [x]) := by
    intro j u hju
    have hlenb : (a.set c { t with child := some a.length } ++ [x]).length = a.length + 1 := by
      simp [hbase]
    rcases lt_trichotomy j a.length with h | h | h
    · by_cases hjc : j = c
      · subst hjc
        rw [hgetc] at hju
        injection hju with hju
        subst hju
        obtain ⟨h1, h2, h3⟩ := hS j t hct
        refine ⟨fun k hk => ?_, fun nx hnx => ?_, fun q hq => h3 q hq⟩
        · simp only at hk
          injection hk with hk
          subst hk
          omega
        · have := h2 nx hnx; omega
      · rw [hgetne j h hjc] at hju
        obtain ⟨h1, h2, h3⟩ := hS j u hju
        refine ⟨fun k hk => ?_, fun nx hnx => ?_, h3⟩
        · have := h1 k hk; omega
        · have := h2 nx hnx; omega
    · subst h
      rw [hgetlen] at hju
      injection hju with hju
      subst hju
      exact ⟨fun k hk => absurd hk (by rw [hxc]; simp),
             fun nx hnx => absurd hnx (by rw [hxn]; simp),
             fun q hq => by rw [hxp] at hq; injection hq with hq; omega⟩
    · rw [hgetgt j h] at hju
      exact absurd hju (by simp)
  have hpj : ∀ j, j < a.length →
      parentOf (a.set c { t with child := some a.length } ++ [x]) j = parentOf a j := by
    intro j hj
    by_cases hjc : j = c
    · subst hjc
      unfold parentOf
      rw [hgetc, hct]
    · unfold parentOf; rw [hgetne j hj hjc]
  have hplen : parentOf (a.set c { t with child := some a.length } ++ [x]) a.length = some c := by
    unfold parentOf; rw [hgetlen]; exact hxp
  have hchildren : ∀ i, childrenOf (a.set c { t with child := some a.length } ++ [x]) i =
      childrenOf a i ++ (if c = i then [a.length] else []) := by
    intro i
    rw [childrenOf_concat (by simp [hbase]) hpj i, hplen]
    by_cases hci : c = i
    · simp [hci]
    · simp [hci]
  have hchain : ∀ i, chain (a.set c { t with child := some a.length } ++ [x]) i =
      childrenOf a i ++ (if c = i then [a.length] else []) := by
    intro i
    have hlenb : (a.set c { t with child := some a.length } ++ [x]).length = a.length + 1 := by
      simp [hbase]
    by_cases hci : c = i
    · subst hci
      have hco : childOf (a.set c { t with child := some a.length } ++ [x]) c =
          some a.length := by
        unfold childOf
        rw [hgetc]
      unfold chain
      rw [hco, hlenb, chainF_succ, hsteps, step_none_of_ge (le_refl a.length), chainF_none]
      have hac : childrenOf a c = [] := by
        rw [← hEq c]
        unfold chain childOf
        rw [hct]
        show chainF a a.length t.child = []
        rw [htk, chainF_none]
      rw [hac]
      simp
    · rcases Nat.lt_or_ge i a.length with h | h
      · have hco : childOf (a.set c { t with child := some a.length } ++ [x]) i =
            childOf a i := by
          unfold childOf
          rw [hgetne i h (fun he => hci he.symm)]
        unfold chain
        rw [hco, if_neg hci, List.append_nil]
        cases hk : childOf a i with
        | none =>
          rw [chainF_none, ← hEq i]
          unfold chain
          rw [hk, chainF_none]
        | some k =>
          have hb := childOf_bound hS hk
          rw [chainF_congr hsteps, hlenb,
            chainF_fuel hS (a.length + 1) a.length k (by omega) (by omega), ← hEq i]
          unfold chain
          rw [hk]
      · have hco : childOf (a.set c { t with child := some a.length } ++ [x]) i = none := by
          unfold childOf
          rcases Nat.eq_or_lt_of_le h with h1 | h1
          · rw [← h1, hgetlen]; exact hxc
          · rw [hgetgt i h1]
        unfold chain
        rw [hco, chainF_none, childrenOf_ge hS h, if_neg hci]
        rfl
  refine ⟨hS', ?_, ?_⟩
  · intro q hq
    injection hq with hq
    subst hq
    simp [hbase]
  · intro i
    show chain _ i = childrenOf _ i
    rw [hchain i, hchildren i]

/-- Attaching the new node after the cursor's last child (the sibling
branch of Profiler::add) preserves the navigator invariant. -/
theorem navOk_append_sibling {a : List Timer} (hS : StructOk a)
    (hEq : ∀ i, chain a i = childrenOf a i) {c k : ℕ} {t : Timer}
    (hct : a[c]? = some t) (htk : t.child = some k) {lt : Timer}
    (hlt : a[walkLast a a.length k]? = some lt) {x : Timer}
    (hxc : x.child = none) (hxn : x.next = none) (hxp : x.parent = some c)
    (r : Option ℕ) :
    NavOk { arena := a.set (walkLast a a.length k) { lt with next := some a.length } ++ [x],
            root := r, current := some a.length } := by
  have hc : c < a.length := lt_of_getElem?_some hct
  have hkb : c < k ∧ k < a.length := (hS c t hct).1 k htk
  set w := walkLast a a.length k with hwdef
  have hfuel : a.length - k < a.length := by omega
  have hwlt : w < a.length := walkLast_lt hS a.length k hkb.2
  have hwstep : step a w = none := walkLast_step_none hS a.length k hfuel
  have hwmemc : w ∈ chain a c := by
    unfold chain childOf
    rw [hct]
    show w ∈ chainF a a.length t.child
    rw [htk]
    exact walkLast_mem hS a.length k hfuel
  have hwparent : parentOf a w = some c := by
    have := hEq c ▸ hwmemc
    exact (mem_childrenOf.mp this).2
  have hcw : c ≠ w := by
    have := parentOf_bound hS hwparent
    omega
  have hbase : (a.set w { lt with next := some a.length }).length = a.length :=
    List.length_set a w _
  have hgetne : ∀ j, j < a.length → j ≠ w →
      (a.set w { lt with next := some a.length } ++ [x])[j]? = a[j]? := by
    intro j hj hjw
    rw [List.getElem?_append_left (by rw [hbase]; exact hj),
      List.getElem?_set_ne (fun he => hjw he.symm)]
  have hgetw : (a.set w { lt with next := some a.length } ++ [x])[w]? =
      some { lt with next := some a.length } := by
    rw [List.getElem?_append_left (by rw [hbase]; exact hwlt)]
    exact List.getElem?_set_self hwlt
  have hgetlen : (a.set w { lt with next := some a.length } ++ [x])[a.length]? = some x := by
    have h := List.getElem?_concat_length (a.set w { lt with next := some a.length }) x
    rwa [hbase] at h
  have hgetgt : ∀ j, a.length < j →
      (a.set w { lt with next := some a.length } ++ [x])[j]? = none :=
    fun j hj => List.getElem?_eq_none (by simp [hbase]; omega)
  have hlenb : (a.set w { lt with next := some a.length } ++ [x]).length = a.length + 1 := by
    simp [hbase]
  have hstepne : ∀ j, j < a.length → j ≠ w →
      step (a.set w { lt with next := some a.length } ++ [x]) j = step a j := by
    intro j hj hjw
    unfold step
    rw [hgetne j hj hjw]
  have hstepw : step (a.set w { lt with next := some a.length } ++ [x]) w = some a.length := by
    unfold step
    rw [hgetw]
  have hsteplen : step (a.set w { lt with next := some a.length } ++ [x]) a.length = none := by
    unfold step
    rw [hgetlen]
    exact hxn
  have hS' : StructOk (a.set w { lt with next := some a.length } ++ [x]) := by
    intro j u hju
    rcases lt_trichotomy j a.length with h | h | h
    · by_cases hjw : j = w
      · subst hjw
        rw [hgetw] at hju
        injection hju with hju
        subst hju
        obtain ⟨h1, h2, h3⟩ := hS w lt hlt
        refine ⟨fun kk hkk => ?_, fun nx hnx => ?_, fun q hq => h3 q hq⟩
        · have := h1 kk hkk; omega
        · simp only at hnx
          injection hnx with hnx
          subst hnx
          omega
      · rw [hgetne j h hjw] at hju
        obtain ⟨h1, h2, h3⟩ := hS j u hju
        refine ⟨fun kk hkk => ?_, fun nx hnx => ?_, h3⟩
        · have := h1 kk hkk; omega
        · have := h2 nx hnx; omega
    · subst h
      rw [hgetlen] at hju
      injection hju with hju
      subst hju
      exact ⟨fun kk hkk => absurd hkk (by rw [hxc]; simp),
             fun nx hnx => absurd hnx (by rw [hxn]; simp),
             fun q hq => by rw [hxp] at hq; injection hq with hq; omega⟩
    · rw [hgetgt j h] at hju
      exact absurd hju (by simp)
  have hpj : ∀ j, j < a.length →
      parentOf (a.set w { lt with next := some a.length } ++ [x]) j = parentOf a j := by
    intro j hj
    by_cases hjw : j = w
    · subst hjw
      unfold parentOf
      rw [hgetw, hlt]
    · unfold parentOf; rw [hgetne j hj hjw]
  have hplen : parentOf (a.set w { lt with next := some a.length } ++ [x]) a.length = some c := by
    unfold parentOf; rw [hgetlen]; exact hxp
  have hchildren : ∀ i, childrenOf (a.set w { lt with next := some a.length } ++ [x]) i =
      childrenOf a i ++ (if c = i then [a.length] else []) := by
    intro i
    rw [childrenOf_concat (by simp [hbase]) hpj i, hplen]
    by_cases hci : c = i
    · simp [hci]
    · simp [hci]
  have hcob : ∀ i, i < a.length →
      childOf (a.set w { lt with next := some a.length } ++ [x]) i = childOf a i := by
    intro i hi
    by_cases hiw : i = w
    · subst hiw
      unfold childOf
      rw [hgetw, hlt]
    · unfold childOf; rw [hgetne i hi hiw]
  have hchain : ∀ i, chain (a.set w { lt with next := some a.length } ++ [x]) i =
      childrenOf a i ++ (if c = i then [a.length] else []) := by
    intro i
    by_cases hci : c = i
    · subst hci
      have hcoc : childOf a c = some k := by
        unfold childOf
        rw [hct]
        exact htk
      unfold chain
      rw [hcob c hc, hcoc, hlenb,
        chainF_graft hS hstepne hstepw hsteplen hwstep a.length k hkb.2 hfuel hwdef.symm]
      have : chainF a a.length (some k) = childrenOf a c := by
        rw [← hEq c]
        unfold chain
        rw [hcoc]
      rw [this]
      simp
    · rcases Nat.lt_or_ge i a.length with h | h
      · unfold chain
        rw [hcob i h, if_neg hci, List.append_nil]
        cases hk : childOf a i with
        | none =>
          rw [chainF_none, ← hEq i]
          unfold chain
          rw [hk, chainF_none]
        | some ki =>
          have hb := childOf_bound hS hk
          have hmem : ∀ m, m ∈ chainF a ((a.set w { lt with next := some a.length } ++ [x]).length)
              (some ki) → m ≠ w := by
            intro m hm hmw
            rw [hlenb, chainF_fuel hS (a.length + 1) a.length ki (by omega) (by omega)] at hm
            have hmchain : m ∈ chain a i := by
              unfold chain
              rw [hk]
              exact hm
            have := (mem_childrenOf.mp (hEq i ▸ hmchain)).2
            rw [hmw, hwparent] at this
            injection this with this
            exact hci this
          rw [chainF_avoid hS hstepne _ ki hb.2 hmem, hlenb,
            chainF_fuel hS (a.length + 1) a.length ki (by omega) (by omega), ← hEq i]
          unfold chain
          rw [hk]
      · have hco : childOf (a.set w { lt with next := some a.length } ++ [x]) i = none := by
          unfold childOf
          rcases Nat.eq_or_lt_of_le h with h1 | h1
          · rw [← h1, hgetlen]; exact hxc
          · rw [hgetgt i h1]
        unfold chain
        rw [hco, chainF_none, childrenOf_ge hS h, if_neg hci]
        rfl
  refine ⟨hS', ?_, ?_⟩
  · intro q hq
    injection hq with hq
    subst hq
    simp [hbase]
  · intro i
    show chain _ i = childrenOf _ i
    rw [hchain i, hchildren i]

theorem modifyAt_getElem? (a : List Timer) (i : ℕ) (f : Timer → Timer) (j : ℕ) :
    (modifyAt a i f)[j]? = if i = j then (a[j]?).map f else a[j]? := by
  unfold modifyAt
  cases ha : a[i]? with
  | none =>
    by_cases hij : i = j
    · subst hij
      rw [if_pos rfl, ha]
      rfl
    · rw [if_neg hij]
  | some t0 =>
    by_cases hij : i = j
    · subst hij
      rw [if_pos rfl, ha, List.getElem?_set_self (lt_of_getElem?_some ha)]
      rfl
    · rw [if_neg hij, List.getElem?_set_ne hij]

theorem modifyAt_length (a : List Timer) (i : ℕ) (f : Timer → Timer) :
    (modifyAt a i f).length = a.length := by
  unfold modifyAt
  cases a[i]? <;> simp

theorem step_modifyAt {a : List Timer} {i : ℕ} {f : Timer → Timer}
    (hfn : ∀ t, (f t).next = t.next) (j : ℕ) :
    step (modifyAt a i f) j = step a j := by
  unfold step
  rw [modifyAt_getElem?]
  by_cases hij : i = j
  · rw [if_pos hij]
    cases a[j]? with
    | none => rfl
    | some t => exact hfn t
  · rw [if_neg hij]

theorem childOf_modifyAt {a : List Timer} {i : ℕ} {f : Timer → Timer}
    (hfc : ∀ t, (f t).child = t.child) (j : ℕ) :
    childOf (modifyAt a i f) j = childOf a j := by
  unfold childOf
  rw [modifyAt_getElem?]
  by_cases hij : i = j
  · rw [if_pos hij]
    cases a[j]? with
    | none => rfl
    | some t => exact hfc t
  · rw [if_neg hij]

theorem parentOf_modifyAt {a : List Timer} {i : ℕ} {f : Timer → Timer}
    (hfp : ∀ t, (f t).parent = t.parent) (j : ℕ) :
    parentOf (modifyAt a i f) j = parentOf a j := by
  unfold parentOf
  rw [modifyAt_getElem?]
  by_cases hij : i = j
  · rw [if_pos hij]
    cases a[j]? with
    | none => rfl
    | some t => exact hfp t
  · rw [if_neg hij]

/-- A statistics-only node update (one that does not touch the pointer
fields) preserves the navigator invariant. -/
theorem navOk_arena_replace {n1 : Nav} (h : NavOk n1) (i : ℕ) (f : Timer → Timer)
    (hfc : ∀ t, (f t).child = t.child) (hfn : ∀ t, (f t).next = t.next)
    (hfp : ∀ t, (f t).parent = t.parent) :
    NavOk { n1 with arena := modifyAt n1.arena i f } := by
  obtain ⟨hS, hCur, hEq⟩ := h
  have hlen := modifyAt_length n1.arena i f
  refine ⟨?_, ?_, ?_⟩
  · intro j u hju
    rw [modifyAt_getElem?] at hju
    by_cases hij : i = j
    · rw [if_pos hij] at hju
      cases ha : n1.arena[j]? with
      | none => rw [ha] at hju; exact absurd hju (by simp)
      | some t0 =>
        rw [ha] at hju
        injection hju with hju
        subst hju
        obtain ⟨h1, h2, h3⟩ := hS j t0 ha
        refine ⟨fun k hk => ?_, fun nx hnx => ?_, fun q hq => ?_⟩
        · rw [hfc t0] at hk
          have := h1 k hk
          rw [hlen]
          exact this
        · rw [hfn t0] at hnx
          have := h2 nx hnx
          rw [hlen]
          exact this
        · rw [hfp t0] at hq
          exact h3 q hq
    · rw [if_neg hij] at hju
      obtain ⟨h1, h2, h3⟩ := hS j u hju
      refine ⟨fun k hk => ?_, fun nx hnx => ?_, h3⟩
      · have := h1 k hk; rw [hlen]; exact this
      · have := h2 nx hnx; rw [hlen]; exact this
  · intro q hq
    rw [hlen]
    exact hCur q hq
  · intro ii
    show chain (modifyAt n1.arena i f) ii = childrenOf (modifyAt n1.arena i f) ii
    unfold chain
    rw [hlen, childOf_modifyAt hfc ii, chainF_congr (step_modifyAt hfn),
      childrenOf_congr hlen (fun j _ => parentOf_modifyAt hfp j) ii]
    exact hEq ii

theorem Timer.stop_child (t : Timer) (c w : ℤ) : (t.stop c w).child = t.child := by
  unfold Timer.stop; split <;> rfl

theorem Timer.stop_next (t : Timer) (c w : ℤ) : (t.stop c w).next = t.next := by
  unfold Timer.stop; split <;> rfl

theorem Timer.stop_parent (t : Timer) (c w : ℤ) : (t.stop c w).parent = t.parent := by
  unfold Timer.stop; split <;> rfl

theorem Timer.stop_name (t : Timer) (c w : ℤ) : (t.stop c w).name = t.name := by
  unfold Timer.stop; split <;> rfl

theorem Timer.start_child (t : Timer) (c w : ℤ) : (t.start c w).child = t.child := by
  show (if t.is_on then t.stop c w else t).child = t.child
  split
  · exact Timer.stop_child t c w
  · rfl

theorem Timer.start_next (t : Timer) (c w : ℤ) : (t.start c w).next = t.next := by
  show (if t.is_on then t.stop c w else t).next = t.next
  split
  · exact Timer.stop_next t c w
  · rfl

theorem Timer.start_parent (t : Timer) (c w : ℤ) : (t.start c w).parent = t.parent := by
  show (if t.is_on then t.stop c w else t).parent = t.parent
  split
  · exact Timer.stop_parent t c w
  · rfl

theorem Timer.start_name (t : Timer) (c w : ℤ) : (t.start c w).name = t.name := by
  show (if t.is_on then t.stop c w else t).name = t.name
  split
  · exact Timer.stop_name t c w
  · rfl

/-- The cursor-relative search only ever returns indices of nodes present
in the arena. -/
theorem searchTimer_valid {a : List Timer} :
    ∀ fuel o tname i, searchTimer a fuel o tname = some i → ∃ t, a[i]? = some t := by
  intro fuel
  induction fuel with
  | zero => intro o tname i h; exact absurd h (by simp [searchTimer])
  | succ fuel ih =>
    intro o tname i h
    cases o with
    | none => exact absurd h (by simp [searchTimer])
    | some j =>
      unfold searchTimer at h
      split at h
      · exact absurd h (by simp)
      · rename_i t ha
        split at h
        · injection h with h
          subst h
          exact ⟨t, ha⟩
        · split at h
          · rename_i r hrec
            injection h with h
            subst h
            exact ih _ _ _ hrec
          · exact ih _ _ _ h

/-- Profiler::add preserves the navigator invariant. -/
theorem navOk_add {n : Nav} (h : NavOk n) (tname tnote : String) :
    NavOk (n.add tname tnote) := by
  obtain ⟨hS, hCur, hEq⟩ := h
  cases hroot : n.root with
  | none =>
    have hb : n.addBase = n.arena := by simp [Nav.addBase, hroot]
    have hp : n.addParent = none := by simp [Nav.addParent, hroot]
    have hv : n.addPrev = none := by simp [Nav.addPrev, hroot]
    unfold Nav.add
    rw [hb, hp, hv]
    exact navOk_append_plain hS hEq rfl rfl rfl _
  | some r0 =>
    cases hcur : n.current with
    | none =>
      have hb : n.addBase = n.arena := by simp [Nav.addBase, hroot, hcur]
      have hp : n.addParent = none := by simp [Nav.addParent, hroot, hcur]
      have hv : n.addPrev = none := by simp [Nav.addPrev, hroot, hcur]
      unfold Nav.add
      rw [hb, hp, hv]
      exact navOk_append_plain hS hEq rfl rfl rfl _
    | some c =>
      have hc : c < n.arena.length := hCur c hcur
      obtain ⟨t, hct⟩ : ∃ t, n.arena[c]? = some t := ⟨_, List.getElem?_eq_getElem hc⟩
      cases htk : t.child with
      | none =>
        have hb : n.addBase = n.arena.set c { t with child := some n.arena.length } := by
          simp [Nav.addBase, hroot, hcur, hct, htk]
        have hp : n.addParent = some c := by simp [Nav.addParent, hroot, hcur]
        have hv : n.addPrev = none := by simp [Nav.addPrev, hroot, hcur, hct, htk]
        unfold Nav.add
        rw [hb, hp, hv]
        exact navOk_append_firstChild hS hEq hct htk rfl rfl rfl _
      | some k =>
        have hkb := (hS c t hct).1 k htk
        have hwl : walkLast n.arena n.arena.length k < n.arena.length :=
          walkLast_lt hS n.arena.length k hkb.2
        obtain ⟨lt, hlt⟩ : ∃ u, n.arena[walkLast n.arena n.arena.length k]? = some u :=
          ⟨_, List.getElem?_eq_getElem hwl⟩
        have hb : n.addBase = n.arena.set (walkLast n.arena n.arena.length k)
            { lt with next := some n.arena.length } := by
          simp [Nav.addBase, hroot, hcur, hct, htk, hlt]
        have hp : n.addParent = some c := by simp [Nav.addParent, hroot, hcur]
        have hv : n.addPrev = some (walkLast n.arena n.arena.length k) := by
          simp [Nav.addPrev, hroot, hcur, hct, htk]
        unfold Nav.add
        rw [hb, hp, hv]
        exact navOk_append_sibling hS hEq hct htk hlt rfl rfl rfl _

/-- Profiler::start preserves the navigator invariant. -/
theorem navOk_start {n : Nav} (h : NavOk n) (tname tnote : String) (c w : ℤ) :
    NavOk (n.start tname tnote c w) := by
  cases hf : n.find tname with
  | none =>
    have h1 := navOk_add h tname tnote
    have hcur : (n.add tname tnote).current = some n.arena.length := rfl
    have heq : n.start tname tnote c w =
        { n.add tname tnote with arena :=
            (modifyAt (n.add tname tnote).arena n.arena.length (fun t => t.start c w)) } := by
      simp [Nav.start, hf, hcur]
    rw [heq]
    exact navOk_arena_replace h1 n.arena.length _ (fun t => Timer.start_child t c w)
      (fun t => Timer.start_next t c w) (fun t => Timer.start_parent t c w)
  | some i =>
    have hvalid : i < n.arena.length := by
      obtain ⟨t, ht⟩ := searchTimer_valid _ _ _ _ hf
      exact lt_of_getElem?_some ht
    have h1 : NavOk { n with current := some i } := by
      obtain ⟨hS, hCur, hEq⟩ := h
      exact ⟨hS, fun q hq => by injection hq with hq; subst hq; exact hvalid, hEq⟩
    have heq : n.start tname tnote c w =
        { n with arena := modifyAt n.arena i (fun t => t.start c w),
                 current := some i } := by
      simp [Nav.start, hf]
    rw [heq]
    exact navOk_arena_replace h1 i _ (fun t => Timer.start_child t c w)
      (fun t => Timer.start_next t c w) (fun t => Timer.start_parent t c w)

/-- Profiler::stop preserves the navigator invariant. -/
theorem navOk_stop {n : Nav} (h : NavOk n) (tname : String) (c w : ℤ) :
    NavOk (n.stop tname c w).1 := by
  obtain ⟨hS, hCur, hEq⟩ := h
  cases hc : n.current with
  | none =>
    have heq : (n.stop tname c w).1 = n := by simp [Nav.stop, hc]
    rw [heq]
    exact ⟨hS, hCur, hEq⟩
  | some i =>
    cases ha : n.arena[i]? with
    | none =>
      have heq : (n.stop tname c w).1 = n := by simp [Nav.stop, hc, ha]
      rw [heq]
      exact ⟨hS, hCur, hEq⟩
    | some t =>
      by_cases hname : t.name = tname
      · have heq : (n.stop tname c w).1 =
            { n with arena := modifyAt n.arena i (fun u => u.stop c w),
                     current := t.parent } := by
          simp [Nav.stop, hc, ha, hname]
        rw [heq]
        have h1 : NavOk { n with current := t.parent } := by
          refine ⟨hS, fun q hq => ?_, hEq⟩
          have := (hS i t ha).2.2 q hq
          have hi := lt_of_getElem?_some ha
          show q < n.arena.length
          omega
        exact navOk_arena_replace h1 i _ (fun u => Timer.stop_child u c w)
          (fun u => Timer.stop_next u c w) (fun u => Timer.stop_parent u c w)
      · have heq : (n.stop tname c w).1 = n := by simp [Nav.stop, hc, ha, hname]
        rw [heq]
        exact ⟨hS, hCur, hEq⟩

theorem navOk_applyOp {p : Profiler} (h : NavOk p.nav) (op : Op) :
    NavOk (applyOp p op).nav := by
  cases op with
  | start tname tnote c w => exact navOk_start h tname tnote c w
  | stop tname c w => exact navOk_stop h tname c w

theorem navOk_init (b : Bool) : NavOk (Profiler.init b).nav := by
  refine ⟨?_, ?_, ?_⟩
  · intro i t hit
    exact absurd hit (by simp [Profiler.init])
  · intro c hc
    exact absurd hc (by simp [Profiler.init])
  · intro i
    rfl

theorem navOk_runOps (ops : List Op) :
    ∀ p : Profiler, NavOk p.nav → NavOk (runOps ops p).nav := by
  induction ops with
  | nil => intro p h; exact h
  | cons op ops ih =>
    intro p h
    exact ih (applyOp p op) (navOk_applyOp h op)

/-! ### The facade state seen through each operation -/

theorem applyOp_nav (p : Profiler) (op : Op) :
    (applyOp p op).nav = navApply op p.nav := by
  cases op <;> rfl

theorem applyOp_sink (p : Profiler) (op : Op) : (applyOp p op).sink = p.sink := by
  cases op <;> rfl

theorem applyOp_indent (p : Profiler) (op : Op) : (applyOp p op).indent = p.indent := by
  cases op <;> rfl

theorem applyOp_out_silent {p : Profiler} (h : p.sink = false) (op : Op) :
    (applyOp p op).out = p.out := by
  cases op <;> simp [applyOp, Profiler.start, Profiler.stop, h]

theorem runOps_nav_congr (ops : List Op) :
    ∀ p q : Profiler, p.nav = q.nav → (runOps ops p).nav = (runOps ops q).nav := by
  induction ops with
  | nil => intro p q h; exact h
  | cons op ops ih =>
    intro p q h
    exact ih (applyOp p op) (applyOp q op)
      (by rw [applyOp_nav, applyOp_nav, h])

theorem runOps_sink (ops : List Op) : ∀ p : Profiler, (runOps ops p).sink = p.sink := by
  induction ops with
  | nil => intro p; rfl
  | cons op ops ih =>
    intro p
    rw [show runOps (op :: ops) p = runOps ops (applyOp p op) from rfl, ih,
      applyOp_sink]

theorem runOps_indent (ops : List Op) : ∀ p : Profiler, (runOps ops p).indent = p.indent := by
  induction ops with
  | nil => intro p; rfl
  | cons op ops ih =>
    intro p
    rw [show runOps (op :: ops) p = runOps ops (applyOp p op) from rfl, ih,
      applyOp_indent]

theorem runOps_out_silent (ops : List Op) :
    ∀ p : Profiler, p.sink = false → (runOps ops p).out = p.out := by
  induction ops with
  | nil => intro p _; rfl
  | cons op ops ih =>
    intro p h
    rw [show runOps (op :: ops) p = runOps ops (applyOp p op) from rfl,
      ih _ (by rw [applyOp_sink]; exact h), applyOp_out_silent h]

theorem get_profile_string_congr {p q : Profiler} (h1 : p.nav = q.nav)
    (h2 : p.indent = q.indent) (v : ℤ) :
    p.get_profile_string v = q.get_profile_string v := by
  unfold Profiler.get_profile_string
  rw [h1, h2]

theorem runOps_no_start_nav (ops : List Op) :
    ∀ p : Profiler, (∀ op ∈ ops, op.isStart = false) →
      p.nav.root = none → p.nav.current = none →
      (runOps ops p).nav.root = none ∧ (runOps ops p).nav.current = none := by
  induction ops with
  | nil => exact fun p _ h1 h2 => ⟨h1, h2⟩
  | cons op ops ih =>
    intro p hall h1 h2
    have hop := hall op (List.mem_cons_self op ops)
    cases op with
    | start tname tnote c w => simp [Op.isStart] at hop
    | stop tname c w =>
      have hnav : (applyOp p (Op.stop tname c w)).nav = p.nav := by
        show (p.nav.stop tname c w).1 = p.nav
        simp [Nav.stop, h2]
      exact ih (applyOp p (Op.stop tname c w))
        (fun o ho => hall o (List.mem_cons_of_mem _ ho))
        (by rw [hnav]; exact h1) (by rw [hnav]; exact h2)

/-! ### Renderer lemmas -/

theorem preorderRows_level_le {a : List Timer} :
    ∀ fuel o level r, r ∈ preorderRows a fuel o level → level ≤ r.level := by
  intro fuel
  induction fuel with
  | zero => intro o level r h; exact absurd h (by simp [preorderRows])
  | succ fuel ih =>
    intro o level r h
    cases o with
    | none => exact absurd h (by simp [preorderRows])
    | some i =>
      unfold preorderRows at h
      split at h
      · exact absurd h (by simp)
      · rename_i t ha
        rcases List.mem_cons.mp h with h | h
        · subst h
          exact Nat.le_refl _
        · rcases List.mem_append.mp h with h | h
          · have := ih _ _ _ h
            omega
          · exact ih _ _ _ h

theorem rowsOf_eq_filter_preorder {a : List Timer} :
    ∀ fuel (o : Option ℕ) (level : ℕ) (v : ℤ), (level : ℤ) ≤ v →
      rowsOf a fuel o level v =
        (preorderRows a fuel o level).filter (fun r => decide ((r.level : ℤ) ≤ v)) := by
  intro fuel
  induction fuel with
  | zero => intro o level v _; rfl
  | succ fuel ih =>
    intro o level v h
    cases o with
    | none => rfl
    | some i =>
      unfold rowsOf preorderRows
      cases ha : a[i]? with
      | none => rfl
      | some t =>
        show ({ name := t.name, note := t.note, ncalls := t.ncalls,
                cpu := t.cpu_time_accu, wall := t.wall_time_accu, level := level } ::
              ((if (level : ℤ) < v then rowsOf a fuel t.child (level + 1) v else []) ++
               (if (level : ℤ) ≤ v then rowsOf a fuel t.next level v else []))) =
          List.filter (fun r => decide ((r.level : ℤ) ≤ v))
            ({ name := t.name, note := t.note, ncalls := t.ncalls,
               cpu := t.cpu_time_accu, wall := t.wall_time_accu, level := level } ::
             (preorderRows a fuel t.child (level + 1) ++ preorderRows a fuel t.next level))
        have hchild : (if (level : ℤ) < v then rowsOf a fuel t.child (level + 1) v else []) =
            (preorderRows a fuel t.child (level + 1)).filter
              (fun r => decide ((r.level : ℤ) ≤ v)) := by
          by_cases hlt : (level : ℤ) < v
          · rw [if_pos hlt, ih _ _ _ (by push_cast; omega)]
          · rw [if_neg hlt]
            have hv : ∀ r ∈ preorderRows a fuel t.child (level + 1),
                ¬ ((fun r => decide ((r.level : ℤ) ≤ v)) r = true) := by
              intro r hr
              have h1 := preorderRows_level_le _ _ _ _ hr
              simp only [decide_eq_true_eq]
              have h2 : (level : ℤ) + 1 ≤ (r.level : ℤ) := by exact_mod_cast h1
              omega
            exact (List.filter_eq_nil_iff.mpr hv).symm
        have hnext : (if (level : ℤ) ≤ v then rowsOf a fuel t.next level v else []) =
            (preorderRows a fuel t.next level).filter
              (fun r => decide ((r.level : ℤ) ≤ v)) := by
          rw [if_pos h, ih _ _ _ h]
        rw [hchild, hnext, List.filter_cons, List.filter_append, if_pos (by simpa using h)]

/-! ### Repeated start/stop rounds of one region nested under an active
outer region -/

theorem searchTimer_some_eq (a : List Timer) (fuel : ℕ) (i : ℕ) (tname : String) :
    searchTimer a (fuel + 1) (some i) tname =
      match a[i]? with
      | none => none
      | some t =>
        if t.name = tname then some i
        else
          match searchTimer a fuel t.child tname with
          | some r => some r
          | none => searchTimer a fuel t.next tname := rfl

theorem c7find {tnO tnI : String} (hne : tnO ≠ tnI) (c0 w0 : ℤ) (n : ℕ)
    (cst wst : ℤ) (aC aW lC lW : ℚ) :
    Nav.find { arena := [c7outer tnO c0 w0, c7inner tnI n cst wst aC aW lC lW],
               root := some 0, current := some 0 } tnI = some 1 := by
  unfold Nav.find
  rw [searchTimer_some_eq]
  show (if tnO = tnI then some 0 else
    match searchTimer [c7outer tnO c0 w0, c7inner tnI n cst wst aC aW lC lW]
        [c7outer tnO c0 w0, c7inner tnI n cst wst aC aW lC lW].length (some 1) tnI with
    | some r => some r
    | none => searchTimer [c7outer tnO c0 w0, c7inner tnI n cst wst aC aW lC lW]
        [c7outer tnO c0 w0, c7inner tnI n cst wst aC aW lC lW].length none tnI) = some 1
  rw [if_neg hne]
  have hs : searchTimer [c7outer tnO c0 w0, c7inner tnI n cst wst aC aW lC lW]
      [c7outer tnO c0 w0, c7inner tnI n cst wst aC aW lC lW].length (some 1) tnI = some 1 := by
    rw [show [c7outer tnO c0 w0, c7inner tnI n cst wst aC aW lC lW].length = 1 + 1 from rfl,
      searchTimer_some_eq]
    show (if tnI = tnI then some 1 else
      match searchTimer [c7outer tnO c0 w0, c7inner tnI n cst wst aC aW lC lW] 1 none tnI with
      | some r => some r
      | none => searchTimer [c7outer tnO c0 w0, c7inner tnI n cst wst aC aW lC lW] 1 none tnI) =
      some 1
    rw [if_pos rfl]
  rw [hs]

theorem c7start {tnO tnI : String} (hne : tnO ≠ tnI) (c0 w0 : ℤ) (n : ℕ)
    (aC aW lC lW : ℚ) (cs ws : ℤ) :
    (c7state tnO tnI c0 w0 n aC aW lC lW).start tnI "" cs ws =
      { nav := { arena := [c7outer tnO c0 w0, c7inner tnI (n + 1) cs ws aC aW 0 0],
                 root := some 0, current := some 1 },
        sink := false, out := [], indent := 1 } := by
  unfold Profiler.start Nav.start c7state
  rw [c7find hne c0 w0 n 0 0 aC aW lC lW]
  rfl

/-- The navigator transition of a matching Profiler::stop, as an equation. -/
theorem stop_eq_of_match {n : Nav} {i : ℕ} {t : Timer} {tname : String} (c w : ℤ)
    (hc : n.current = some i) (ha : n.arena[i]? = some t) (hname : t.name = tname) :
    n.stop tname c w =
      ({ n with arena := modifyAt n.arena i (fun u => u.stop c w), current := t.parent },
        some (StopEvent.stopped tname)) := by
  simp [Nav.stop, hc, ha, hname]

theorem c7stop {tnO tnI : String} (c0 w0 : ℤ) (m : ℕ) (aC aW : ℚ)
    (cs ws ce we : ℤ) (hcs : cs ≠ 0) :
    Profiler.stop
      { nav := { arena := [c7outer tnO c0 w0, c7inner tnI m cs ws aC aW 0 0],
                 root := some 0, current := some 1 },
        sink := false, out := [], indent := 1 } tnI ce we =
      c7state tnO tnI c0 w0 m (aC + cpu_time_from_clocks_diff cs ce)
        (aW + ((we - ws : ℤ) : ℚ) * (1 / 1000000))
        (cpu_time_from_clocks_diff cs ce) (((we - ws : ℤ) : ℚ) * (1 / 1000000)) := by
  have ht : (c7inner tnI m cs ws aC aW 0 0).stop ce we =
      c7inner tnI m 0 0 (aC + cpu_time_from_clocks_diff cs ce)
        (aW + ((we - ws : ℤ) : ℚ) * (1 / 1000000))
        (cpu_time_from_clocks_diff cs ce) (((we - ws : ℤ) : ℚ) * (1 / 1000000)) := by
    unfold Timer.stop
    rw [if_pos (show (c7inner tnI m cs ws aC aW 0 0).is_on from hcs)]
    rfl
  have hnav : (Nav.mk [c7outer tnO c0 w0, c7inner tnI m cs ws aC aW 0 0]
        (some 0) (some 1)).stop tnI ce we =
      ({ arena := modifyAt [c7outer tnO c0 w0, c7inner tnI m cs ws aC aW 0 0] 1
            (fun u => u.stop ce we),
         root := some 0, current := (c7inner tnI m cs ws aC aW 0 0).parent },
        some (StopEvent.stopped tnI)) :=
    stop_eq_of_match ce we rfl rfl rfl
  have hstep1 : Profiler.stop
      { nav := { arena := [c7outer tnO c0 w0, c7inner tnI m cs ws aC aW 0 0],
                 root := some 0, current := some 1 },
        sink := false, out := [], indent := 1 } tnI ce we =
      { nav := ((Nav.mk [c7outer tnO c0 w0, c7inner tnI m cs ws aC aW 0 0]
          (some 0) (some 1)).stop tnI ce we).1,
        sink := false, out := [], indent := 1 } := rfl
  have hmod : modifyAt [c7outer tnO c0 w0, c7inner tnI m cs ws aC aW 0 0] 1
      (fun u => u.stop ce we) =
      [c7outer tnO c0 w0, (c7inner tnI m cs ws aC aW 0 0).stop ce we] := rfl
  rw [hstep1, hnav, hmod, ht]
  rfl

theorem c7_round {tnO tnI : String} (hne : tnO ≠ tnI) (c0 w0 : ℤ) (n : ℕ)
    (aC aW lC lW : ℚ) (iv : Interval) (hcs : iv.cs ≠ 0) :
    roundTrip tnI (c7state tnO tnI c0 w0 n aC aW lC lW) iv =
      c7state tnO tnI c0 w0 (n + 1) (aC + cpuDur iv) (aW + wallDur iv)
        (cpuDur iv) (wallDur iv) := by
  unfold roundTrip
  rw [c7start hne c0 w0 n aC aW lC lW iv.cs iv.ws, c7stop c0 w0 (n + 1) aC aW
    iv.cs iv.ws iv.ce iv.we hcs]
  rfl

theorem c7find0 {tnO tnI : String} (hne : tnO ≠ tnI) (c0 w0 : ℤ) :
    Nav.find (Nav.mk [c7solo tnO c0 w0] (some 0) (some 0)) tnI = none := by
  unfold Nav.find
  rw [searchTimer_some_eq]
  show (if tnO = tnI then some 0 else
    match searchTimer [c7solo tnO c0 w0] [c7solo tnO c0 w0].length none tnI with
    | some r => some r
    | none => searchTimer [c7solo tnO c0 w0] [c7solo tnO c0 w0].length none tnI) = none
  rw [if_neg hne]
  rfl

theorem c7_first {tnO tnI : String} (hne : tnO ≠ tnI) (c0 w0 : ℤ) (iv : Interval)
    (hcs : iv.cs ≠ 0) :
    roundTrip tnI ((Profiler.init false).start tnO "" c0 w0) iv =
      c7state tnO tnI c0 w0 1 (0 + cpuDur iv) (0 + wallDur iv) (cpuDur iv) (wallDur iv) := by
  have h0 : (Profiler.init false).start tnO "" c0 w0 =
      Profiler.mk (Nav.mk [c7solo tnO c0 w0] (some 0) (some 0)) false [] 1 := rfl
  have h1 : (Profiler.mk (Nav.mk [c7solo tnO c0 w0] (some 0) (some 0)) false [] 1).start
        tnI "" iv.cs iv.ws =
      { nav := { arena := [c7outer tnO c0 w0, c7inner tnI 1 iv.cs iv.ws 0 0 0 0],
                 root := some 0, current := some 1 },
        sink := false, out := [], indent := 1 } := by
    unfold Profiler.start Nav.start
    rw [c7find0 hne c0 w0]
    rfl
  unfold roundTrip
  rw [h0, h1, c7stop c0 w0 1 0 0 iv.cs iv.ws iv.ce iv.we hcs]
  rfl

theorem c7_fold {tnO tnI : String} (hne : tnO ≠ tnI) (c0 w0 : ℤ) :
    ∀ (l : List Interval) (n : ℕ) (aC aW lC lW : ℚ), (∀ iv ∈ l, iv.cs ≠ 0) →
      ∃ lC2 lW2, List.foldl (roundTrip tnI) (c7state tnO tnI c0 w0 n aC aW lC lW) l =
        c7state tnO tnI c0 w0 (n + l.length) (aC + (l.map cpuDur).sum)
          (aW + (l.map wallDur).sum) lC2 lW2 := by
  intro l
  induction l with
  | nil =>
    intro n aC aW lC lW _
    exact ⟨lC, lW, by simp⟩
  | cons iv l ih =>
    intro n aC aW lC lW hall
    rw [List.foldl_cons, c7_round hne c0 w0 n aC aW lC lW iv (hall iv (List.mem_cons_self _ _))]
    obtain ⟨lC2, lW2, hh⟩ := ih (n + 1) (aC + cpuDur iv) (aW + wallDur iv)
      (cpuDur iv) (wallDur iv) (fun x hx => hall x (List.mem_cons_of_mem _ hx))
    refine ⟨lC2, lW2, ?_⟩
    rw [hh, List.map_cons, List.sum_cons, List.map_cons, List.sum_cons, List.length_cons]
    have e1 : n + 1 + l.length = n + (l.length + 1) := by omega
    have e2 : aC + cpuDur iv + (l.map cpuDur).sum = aC + (cpuDur iv + (l.map cpuDur).sum) := by
      ring
    have e3 : aW + wallDur iv + (l.map wallDur).sum = aW + (wallDur iv + (l.map wallDur).sum) := by
      ring
    rw [e1, e2, e3]

/-! ### Helper equations for the implicit-restart claim -/

theorem addBase_length (n : Nav) : n.addBase.length = n.arena.length := by
  unfold Nav.addBase
  repeat' split
  any_goals rfl
  any_goals simp [List.length_set]
  split
  · rfl
  · simp [List.length_set]

theorem set_concat {α : Type} (xs : List α) (y z : α) :
    (xs ++ [y]).set xs.length z = xs ++ [z] := by
  induction xs with
  | nil => rfl
  | cons h t ih => simp [List.set, ih]

theorem modifyAt_concat (xs : List Timer) (y : Timer) (f : Timer → Timer) :
    modifyAt (xs ++ [y]) xs.length f = xs ++ [f y] := by
  unfold modifyAt
  rw [List.getElem?_concat_length]
  show (xs ++ [y]).set xs.length (f y) = xs ++ [f y]
  exact set_concat xs y (f y)

theorem Timer.stop_on_eq {t : Timer} (h : t.is_on) (c w : ℤ) :
    t.stop c w = { t with
      cpu_time_last := cpu_time_from_clocks_diff t.clock_start c,
      cpu_time_accu := t.cpu_time_accu + cpu_time_from_clocks_diff t.clock_start c,
      wall_time_last := ((w - t.wt_start : ℤ) : ℚ) * (1 / 1000000),
      wall_time_accu := t.wall_time_accu + ((w - t.wt_start : ℤ) : ℚ) * (1 / 1000000),
      wt_start := 0, clock_start := 0 } := by
  unfold Timer.stop
  rw [if_pos h]

theorem Timer.start_on_eq {t : Timer} (h : t.is_on) (c w : ℤ) :
    t.start c w = { t.stop c w with
      ncalls := (t.stop c w).ncalls + 1, clock_start := c, wt_start := w,
      cpu_time_last := 0, wall_time_last := 0 } := by
  unfold Timer.start
  rw [if_pos h]

/-! ### The claims -/

/-- Claim C1 (code bug): Timer::stop accumulates CPU time in seconds
(clock-tick difference over CLOCKS_PER_SEC) but wall time in milliseconds
(nanosecond count times 1e-6, not 1e-9), violating the required single
consistent unit.  For an interval of one CPU second (10^6 ticks) and one
wall-clock second (10^9 ns), cpu_time_last becomes 1 while wall_time_last
becomes 1000, although the elapsed wall time in seconds is 1 — even though
the report header labels the column "Wall time (s)". -/
theorem c1_wall_unit_mismatch :
    (((Timer.mkNew "t" "").start 1000000 0).stop 2000000 1000000000).cpu_time_last = 1 ∧
    (((Timer.mkNew "t" "").start 1000000 0).stop 2000000 1000000000).wall_time_last = 1000 ∧
    ((1000000000 - 0 : ℤ) : ℚ) / 1000000000 = 1 ∧
    (((Timer.mkNew "t" "").start 1000000 0).stop 2000000 1000000000).wall_time_last ≠
      ((1000000000 - 0 : ℤ) : ℚ) / 1000000000 := by
  have e : ((Timer.mkNew "t" "").start 1000000 0).stop 2000000 1000000000 =
      { Timer.mkNew "t" "" with
        ncalls := 1
        cpu_time_last := cpu_time_from_clocks_diff 1000000 2000000
        cpu_time_accu := 0 + cpu_time_from_clocks_diff 1000000 2000000
        wall_time_last := ((1000000000 - 0 : ℤ) : ℚ) * (1 / 1000000)
        wall_time_accu := 0 + ((1000000000 - 0 : ℤ) : ℚ) * (1 / 1000000)
        wt_start := 0
        clock_start := 0 } := by
    rw [Timer.stop_on_eq (show ((Timer.mkNew "t" "").start 1000000 0).is_on by decide)]
    rfl
  rw [e]
  refine ⟨?_, ?_, ?_, ?_⟩ <;> norm_num [cpu_time_from_clocks_diff, CLOCKS_PER_SEC]

/-- Claim C2 (confirmed): after start A, start B, stop B, stop A, start C,
a further start A while the cursor is at C allocates a brand-new node
named A (index 3, attached under C, which becomes the cursor), instead of
moving the cursor back to the original A node (index 0), which keeps
call count 1 and stays stopped. -/
theorem c2_scoped_reentry_new_node :
    c2run5.nav.arena.length = 3 ∧ c2run5.nav.current = some 2 ∧
    (c2run5.nav.arena[2]?).map Timer.name = some "C" ∧
    c2run6.nav.arena.length = 4 ∧ c2run6.nav.current = some 3 ∧
    (c2run6.nav.arena[3]?).map Timer.name = some "A" ∧
    (c2run6.nav.arena[3]?).map Timer.parent = some (some 2) ∧
    (c2run6.nav.arena[0]?).map Timer.name = some "A" ∧
    (c2run6.nav.arena[0]?).map Timer.ncalls = some 1 ∧
    (c2run6.nav.arena[0]?).map Timer.clock_start = some 0 := by
  decide

/-- Claim C3 (counterexample): the two "not found" sentinels differ — the
CPU query returns -1.0 while the wall query returns 0.0, so they are not
the same consistent sentinel value. -/
theorem c3_counterexample :
    (Profiler.init false).get_cpu_time_last "x" = -1 ∧
    (Profiler.init false).get_wall_time_last "x" = 0 ∧
    (Profiler.init false).get_cpu_time_last "x" ≠
      (Profiler.init false).get_wall_time_last "x" := by
  decide

/-- Claim C3 (amended): for every name the cursor-relative search does not
find, get_cpu_time_last returns the fixed sentinel -1.0 and
get_wall_time_last returns the fixed sentinel 0.0 — fixed but distinct
sentinels. -/
theorem c3_not_found_sentinels (p : Profiler) (tname : String)
    (h : p.nav.find tname = none) :
    p.get_cpu_time_last tname = -1 ∧ p.get_wall_time_last tname = 0 := by
  constructor
  · simp [Profiler.get_cpu_time_last, h]
  · simp [Profiler.get_wall_time_last, h]

/-- Witness for the amended C3 at the empty profiler and the name x. -/
theorem c3_witness :
    (Profiler.init false).nav.find "x" = none ∧
    ((Profiler.init false).get_cpu_time_last "x" = -1 ∧
     (Profiler.init false).get_wall_time_last "x" = 0) :=
  ⟨by decide, c3_not_found_sentinels (Profiler.init false) "x" (by decide)⟩

/-- Claim C4 (confirmed): starting a fresh name twice in a row with no
intervening stop never errors: the second start implicitly stops the node
(adding the first interval's measured CPU and wall durations to the
totals), leaves the arena unchanged in size, brings call_count to 2,
captures the fresh clock readings c2/w2 as the new start point, and resets
cpu_time_last and wall_time_last to zero.  (The hypothesis c1 ≠ 0 reflects
is_on: a zero CPU-clock reading would make the timer believe it is off.) -/
theorem c4_implicit_restart (p : Profiler) (tname tnote tnote2 : String)
    (c1 w1 c2 w2 : ℤ) (hfind : p.nav.find tname = none) (hc1 : c1 ≠ 0) :
    ((p.start tname tnote c1 w1).start tname tnote2 c2 w2).nav.arena.length =
      p.nav.arena.length + 1 ∧
    ((p.start tname tnote c1 w1).nav.arena.length = p.nav.arena.length + 1) ∧
    ((((p.start tname tnote c1 w1).start tname tnote2 c2 w2).nav.arena[p.nav.arena.length]?).map
      Timer.ncalls = some 2) ∧
    ((((p.start tname tnote c1 w1).start tname tnote2 c2 w2).nav.arena[p.nav.arena.length]?).map
      Timer.cpu_time_accu = some (cpu_time_from_clocks_diff c1 c2)) ∧
    ((((p.start tname tnote c1 w1).start tname tnote2 c2 w2).nav.arena[p.nav.arena.length]?).map
      Timer.wall_time_accu = some (((w2 - w1 : ℤ) : ℚ) * (1 / 1000000))) ∧
    ((((p.start tname tnote c1 w1).start tname tnote2 c2 w2).nav.arena[p.nav.arena.length]?).map
      Timer.cpu_time_last = some 0) ∧
    ((((p.start tname tnote c1 w1).start tname tnote2 c2 w2).nav.arena[p.nav.arena.length]?).map
      Timer.wall_time_last = some 0) ∧
    ((((p.start tname tnote c1 w1).start tname tnote2 c2 w2).nav.arena[p.nav.arena.length]?).map
      Timer.clock_start = some c2) ∧
    ((((p.start tname tnote c1 w1).start tname tnote2 c2 w2).nav.arena[p.nav.arena.length]?).map
      Timer.wt_start = some w2) ∧
    (((p.start tname tnote c1 w1).start tname tnote2 c2 w2).nav.current =
      some p.nav.arena.length) := by
  have hget : ∀ y : Timer, (p.nav.addBase ++ [y])[p.nav.arena.length]? = some y := by
    intro y
    rw [← addBase_length p.nav]
    exact List.getElem?_concat_length _ _
  have hmod1 : modifyAt (p.nav.add tname tnote).arena p.nav.arena.length
      (fun t => t.start c1 w1) = p.nav.addBase ++
      [(⟨1, c1, w1, 0, 0, 0, 0, tname, tnote, p.nav.addParent, p.nav.addPrev,
         none, none⟩ : Timer)] := by
    rw [show (p.nav.add tname tnote).arena = p.nav.addBase ++
      [{ Timer.mkNew tname tnote with
         parent := p.nav.addParent
         prev := p.nav.addPrev }] from rfl]
    rw [← addBase_length p.nav, modifyAt_concat]
    rfl
  have hnav1 : (p.start tname tnote c1 w1).nav =
      Nav.mk (p.nav.addBase ++
        [(⟨1, c1, w1, 0, 0, 0, 0, tname, tnote, p.nav.addParent, p.nav.addPrev,
           none, none⟩ : Timer)])
        (p.nav.add tname tnote).root (some p.nav.arena.length) := by
    show p.nav.start tname tnote c1 w1 = _
    unfold Nav.start
    rw [hfind]
    show { p.nav.add tname tnote with
           arena := modifyAt (p.nav.add tname tnote).arena p.nav.arena.length
             (fun t => t.start c1 w1) } = _
    rw [hmod1]
    rfl
  have hfind2 : ∀ R : Option ℕ, Nav.find (Nav.mk (p.nav.addBase ++
      [(⟨1, c1, w1, 0, 0, 0, 0, tname, tnote, p.nav.addParent, p.nav.addPrev,
         none, none⟩ : Timer)]) R (some p.nav.arena.length)) tname =
      some p.nav.arena.length := by
    intro R
    show searchTimer (p.nav.addBase ++
      [(⟨1, c1, w1, 0, 0, 0, 0, tname, tnote, p.nav.addParent, p.nav.addPrev,
         none, none⟩ : Timer)])
      ((p.nav.addBase ++
        [(⟨1, c1, w1, 0, 0, 0, 0, tname, tnote, p.nav.addParent, p.nav.addPrev,
           none, none⟩ : Timer)]).length + 1)
      (some p.nav.arena.length) tname = some p.nav.arena.length
    rw [searchTimer_some_eq]
    simp [hget]
  have hmod2 : modifyAt (p.nav.addBase ++
      [(⟨1, c1, w1, 0, 0, 0, 0, tname, tnote, p.nav.addParent, p.nav.addPrev,
         none, none⟩ : Timer)]) p.nav.arena.length (fun t => t.start c2 w2) =
      p.nav.addBase ++
      [(⟨1, c1, w1, 0, 0, 0, 0, tname, tnote, p.nav.addParent, p.nav.addPrev,
         none, none⟩ : Timer).start c2 w2] := by
    rw [← addBase_length p.nav, modifyAt_concat]
  have hX2 : (⟨1, c1, w1, 0, 0, 0, 0, tname, tnote, p.nav.addParent, p.nav.addPrev,
      none, none⟩ : Timer).start c2 w2 =
      ⟨2, c2, w2, 0 + cpu_time_from_clocks_diff c1 c2,
       0 + ((w2 - w1 : ℤ) : ℚ) * (1 / 1000000), 0, 0, tname, tnote,
       p.nav.addParent, p.nav.addPrev, none, none⟩ := by
    rw [Timer.start_on_eq (show (⟨1, c1, w1, 0, 0, 0, 0, tname, tnote,
        p.nav.addParent, p.nav.addPrev, none, none⟩ : Timer).is_on from hc1) c2 w2,
      Timer.stop_on_eq (show (⟨1, c1, w1, 0, 0, 0, 0, tname, tnote,
        p.nav.addParent, p.nav.addPrev, none, none⟩ : Timer).is_on from hc1) c2 w2]
  have hnav2 : ((p.start tname tnote c1 w1).start tname tnote2 c2 w2).nav =
      Nav.mk (p.nav.addBase ++
        [(⟨2, c2, w2, 0 + cpu_time_from_clocks_diff c1 c2,
           0 + ((w2 - w1 : ℤ) : ℚ) * (1 / 1000000), 0, 0, tname, tnote,
           p.nav.addParent, p.nav.addPrev, none, none⟩ : Timer)])
        (p.nav.add tname tnote).root (some p.nav.arena.length) := by
    show ((p.start tname tnote c1 w1).nav).start tname tnote2 c2 w2 = _
    rw [hnav1]
    unfold Nav.start
    rw [hfind2 (p.nav.add tname tnote).root]
    show { Nav.mk (p.nav.addBase ++
        [(⟨1, c1, w1, 0, 0, 0, 0, tname, tnote, p.nav.addParent, p.nav.addPrev,
           none, none⟩ : Timer)]) (p.nav.add tname tnote).root
        (some p.nav.arena.length) with
        arena := modifyAt (p.nav.addBase ++
          [(⟨1, c1, w1, 0, 0, 0, 0, tname, tnote, p.nav.addParent, p.nav.addPrev,
             none, none⟩ : Timer)]) p.nav.arena.length (fun t => t.start c2 w2) } = _
    rw [hmod2, hX2]
  rw [hnav2]
  refine ⟨?_, ?_, ?_, ?_, ?_, ?_, ?_, ?_, ?_, rfl⟩
  · show (p.nav.addBase ++ [_]).length = p.nav.arena.length + 1
    simp [addBase_length]
  · rw [hnav1]
    show (p.nav.addBase ++ [_]).length = p.nav.arena.length + 1
    simp [addBase_length]
  all_goals simp [hget]

/-- Witness for C4: two consecutive starts of the fresh name X on an empty
profiler. -/
theorem c4_witness :
    (Profiler.init false).nav.find "X" = none ∧ ((1 : ℤ) ≠ 0) ∧
    ((((Profiler.init false).start "X" "" 1 1).start "X" "" 2 2).nav.arena.length =
        (Profiler.init false).nav.arena.length + 1 ∧
     (((Profiler.init false).start "X" "" 1 1).nav.arena.length =
        (Profiler.init false).nav.arena.length + 1) ∧
     (((((Profiler.init false).start "X" "" 1 1).start "X" "" 2
          2).nav.arena[(Profiler.init false).nav.arena.length]?).map Timer.ncalls = some 2) ∧
     (((((Profiler.init false).start "X" "" 1 1).start "X" "" 2
          2).nav.arena[(Profiler.init false).nav.arena.length]?).map Timer.cpu_time_accu =
        some (cpu_time_from_clocks_diff 1 2)) ∧
     (((((Profiler.init false).start "X" "" 1 1).start "X" "" 2
          2).nav.arena[(Profiler.init false).nav.arena.length]?).map Timer.wall_time_accu =
        some (((2 - 1 : ℤ) : ℚ) * (1 / 1000000))) ∧
     (((((Profiler.init false).start "X" "" 1 1).start "X" "" 2
          2).nav.arena[(Profiler.init false).nav.arena.length]?).map Timer.cpu_time_last =
        some 0) ∧
     (((((Profiler.init false).start "X" "" 1 1).start "X" "" 2
          2).nav.arena[(Profiler.init false).nav.arena.length]?).map Timer.wall_time_last =
        some 0) ∧
     (((((Profiler.init false).start "X" "" 1 1).start "X" "" 2
          2).nav.arena[(Profiler.init false).nav.arena.length]?).map Timer.clock_start =
        some 2) ∧
     (((((Profiler.init false).start "X" "" 1 1).start "X" "" 2
          2).nav.arena[(Profiler.init false).nav.arena.length]?).map Timer.wt_start =
        some 2) ∧
     ((((Profiler.init false).start "X" "" 1 1).start "X" "" 2 2).nav.current =
        some (Profiler.init false).nav.arena.length)) :=
  ⟨by decide, by decide,
    c4_implicit_restart (Profiler.init false) "X" "" "" 1 1 2 2 (by decide) (by decide)⟩

/-- Claim C5 (confirmed): when the stopped name does not match the active
cursor's name, or no cursor is active at all, Profiler::stop leaves the
whole navigator state (tree, statistics and cursor) unchanged; only the
output log may grow. -/
theorem c5_mismatched_stop_no_mutation (p : Profiler) (tname : String) (c w : ℤ)
    (h : stopMismatch p tname = true) :
    (p.stop tname c w).nav = p.nav ∧ (p.stop tname c w).sink = p.sink ∧
    (p.stop tname c w).indent = p.indent := by
  have hnav : (p.nav.stop tname c w).1 = p.nav := by
    cases hc : p.nav.current with
    | none => simp [Nav.stop, hc]
    | some i =>
      cases ha : p.nav.arena[i]? with
      | none => simp [Nav.stop, hc, ha]
      | some t =>
        simp only [stopMismatch, hc, ha, bne_iff_ne] at h
        simp [Nav.stop, hc, ha, h]
  exact ⟨hnav, rfl, rfl⟩

/-- Witness for C5: with region A active, stop("Z") changes nothing. -/
theorem c5_witness :
    stopMismatch c5p "Z" = true ∧
    ((c5p.stop "Z" 2 2).nav = c5p.nav ∧ (c5p.stop "Z" 2 2).sink = c5p.sink ∧
     (c5p.stop "Z" 2 2).indent = c5p.indent) :=
  ⟨by decide, c5_mismatched_stop_no_mutation c5p "Z" 2 2 (by decide)⟩

/-- Claim C6 (counterexample): after start hello, stop hello, start world,
the node "world" (index 1) is a non-root node with NO parent, and the
root's child chain is empty, refuting "every node other than the root has
exactly one parent / is reachable from the root". -/
theorem c6_counterexample :
    c6run.nav.arena.length = 2 ∧ c6run.nav.root = some 0 ∧
    (c6run.nav.arena[1]?).map Timer.name = some "world" ∧
    (c6run.nav.arena[1]?).map Timer.parent = some none ∧
    chain c6run.nav.arena 0 = [] := by
  decide

/-- Claim C6 (amended): after every sequence of start/stop operations, the
child chains and the parent pointers correspond exactly — a node appears
in node i's child chain precisely when its parent pointer is i, each chain
lists it at most once, and a non-root node without a parent (as created by
a start issued while the tree had a root but no active cursor) is
unreachable from the root. -/
theorem c6_parent_chain_correspondence (ops : List Op) (b : Bool) :
    (∀ i j, j ∈ chain (runOps ops (Profiler.init b)).nav.arena i ↔
      (j < (runOps ops (Profiler.init b)).nav.arena.length ∧
       parentOf (runOps ops (Profiler.init b)).nav.arena j = some i)) ∧
    (∀ i, (chain (runOps ops (Profiler.init b)).nav.arena i).Nodup) ∧
    (∀ j, parentOf (runOps ops (Profiler.init b)).nav.arena j = none →
      (runOps ops (Profiler.init b)).nav.root ≠ some j →
      ¬ ReachFromRoot (runOps ops (Profiler.init b)).nav j) := by
  obtain ⟨hS, hCur, hEq⟩ := navOk_runOps ops (Profiler.init b) (navOk_init b)
  refine ⟨?_, ?_, ?_⟩
  · intro i j
    rw [hEq i, mem_childrenOf]
  · intro i
    rw [hEq i]
    exact childrenOf_nodup _ i
  · intro j hp hr hreach
    cases hreach with
    | root r hr2 => exact hr hr2
    | child i2 j2 hri hmem =>
      obtain ⟨_, hpj⟩ := mem_childrenOf.mp (hEq i2 ▸ hmem)
      rw [hp] at hpj
      exact absurd hpj (by simp)

/-- Witness for the amended C6: the orphan node of the counterexample run
is indeed unreachable from the root. -/
theorem c6_witness :
    parentOf (runOps [Op.start "hello" "" 1 1, Op.stop "hello" 2 2,
        Op.start "world" "" 3 3] (Profiler.init false)).nav.arena 1 = none ∧
    (runOps [Op.start "hello" "" 1 1, Op.stop "hello" 2 2,
        Op.start "world" "" 3 3] (Profiler.init false)).nav.root ≠ some 1 ∧
    ¬ ReachFromRoot (runOps [Op.start "hello" "" 1 1, Op.stop "hello" 2 2,
        Op.start "world" "" 3 3] (Profiler.init false)).nav 1 :=
  ⟨by decide, by decide,
    (c6_parent_chain_correspondence [Op.start "hello" "" 1 1, Op.stop "hello" 2 2,
      Op.start "world" "" 3 3] false).2.2 1 (by decide) (by decide)⟩

/-- Claim C7 (counterexample): two top-level rounds of start R / stop R
produce TWO nodes named R, each with call count 1 (the second one an
orphan), so no node reaches call_count = N = 2. -/
theorem c7_counterexample :
    c7run.nav.arena.length = 2 ∧
    (c7run.nav.arena[0]?).map Timer.name = some "R" ∧
    (c7run.nav.arena[1]?).map Timer.name = some "R" ∧
    (c7run.nav.arena[0]?).map Timer.ncalls = some 1 ∧
    (c7run.nav.arena[1]?).map Timer.ncalls = some 1 ∧
    (c7run.nav.arena[1]?).map Timer.parent = some none ∧
    c7run.nav.root = some 0 := by
  decide

/-- Claim C7 (amended): when the N rounds are performed nested under an
enclosing active region — so that the cursor-relative search re-finds the
node each time — the region's node ends with call_count = N and its
cpu_time_total and wall_time_total equal the sums over the N intervals of
the code's measured per-interval durations. -/
theorem c7_roundtrip_nested (tnO tnI : String) (hne : tnO ≠ tnI) (c0 w0 : ℤ)
    (iv0 : Interval) (rest : List Interval) (h0 : iv0.cs ≠ 0)
    (hrest : ∀ iv ∈ rest, iv.cs ≠ 0) :
    ((List.foldl (roundTrip tnI) ((Profiler.init false).start tnO "" c0 w0)
        (iv0 :: rest)).nav.arena[1]?).map Timer.ncalls = some (iv0 :: rest).length ∧
    ((List.foldl (roundTrip tnI) ((Profiler.init false).start tnO "" c0 w0)
        (iv0 :: rest)).nav.arena[1]?).map Timer.cpu_time_accu =
      some (((iv0 :: rest).map cpuDur).sum) ∧
    ((List.foldl (roundTrip tnI) ((Profiler.init false).start tnO "" c0 w0)
        (iv0 :: rest)).nav.arena[1]?).map Timer.wall_time_accu =
      some (((iv0 :: rest).map wallDur).sum) := by
  rw [List.foldl_cons, c7_first hne c0 w0 iv0 h0]
  obtain ⟨lC2, lW2, hh⟩ := c7_fold hne c0 w0 rest 1 (0 + cpuDur iv0) (0 + wallDur iv0)
    (cpuDur iv0) (wallDur iv0) hrest
  rw [hh]
  refine ⟨?_, ?_, ?_⟩
  · show some (1 + rest.length) = some (iv0 :: rest).length
    rw [List.length_cons, Nat.add_comm]
  · show some (0 + cpuDur iv0 + (rest.map cpuDur).sum) =
      some (((iv0 :: rest).map cpuDur).sum)
    rw [List.map_cons, List.sum_cons, zero_add]
  · show some (0 + wallDur iv0 + (rest.map wallDur).sum) =
      some (((iv0 :: rest).map wallDur).sum)
    rw [List.map_cons, List.sum_cons, zero_add]

/-- Witness for the amended C7 with two concrete rounds. -/
theorem c7_witness :
    ("P" ≠ "R") ∧ ((⟨2, 2, 4, 4⟩ : Interval).cs ≠ 0) ∧
    (∀ iv ∈ [(⟨5, 5, 9, 9⟩ : Interval)], iv.cs ≠ 0) ∧
    (((List.foldl (roundTrip "R") ((Profiler.init false).start "P" "" 1 1)
        [⟨2, 2, 4, 4⟩, ⟨5, 5, 9, 9⟩]).nav.arena[1]?).map Timer.ncalls =
      some [(⟨2, 2, 4, 4⟩ : Interval), ⟨5, 5, 9, 9⟩].length ∧
     ((List.foldl (roundTrip "R") ((Profiler.init false).start "P" "" 1 1)
        [⟨2, 2, 4, 4⟩, ⟨5, 5, 9, 9⟩]).nav.arena[1]?).map Timer.cpu_time_accu =
      some (([(⟨2, 2, 4, 4⟩ : Interval), ⟨5, 5, 9, 9⟩].map cpuDur).sum) ∧
     ((List.foldl (roundTrip "R") ((Profiler.init false).start "P" "" 1 1)
        [⟨2, 2, 4, 4⟩, ⟨5, 5, 9, 9⟩]).nav.arena[1]?).map Timer.wall_time_accu =
      some (([(⟨2, 2, 4, 4⟩ : Interval), ⟨5, 5, 9, 9⟩].map wallDur).sum)) :=
  ⟨by decide, by decide, by decide,
    c7_roundtrip_nested "P" "R" (by decide) 1 1 ⟨2, 2, 4, 4⟩ [⟨5, 5, 9, 9⟩]
      (by decide) (by decide)⟩

/-- Claim C8 (confirmed): for every tree, every starting level and every
verbosity at least that level, the rendered rows are exactly the full
pre-order traversal filtered to depth at most the verbosity — children are
descended into only while the verbosity exceeds the current depth, and all
later siblings at a shown depth are rendered. -/
theorem c8_depth_limited_rendering (a : List Timer) (fuel : ℕ) (o : Option ℕ)
    (level : ℕ) (v : ℤ) (h : (level : ℤ) ≤ v) :
    rowsOf a fuel o level v =
      (preorderRows a fuel o level).filter (fun r => decide ((r.level : ℤ) ≤ v)) :=
  rowsOf_eq_filter_preorder fuel o level v h

/-- Witness for C8: a three-level tree rendered with verbosity 1 shows the
root and both children and omits the grandchild. -/
theorem c8_witness :
    ((0 : ℤ) ≤ 1) ∧
    (rowsOf threeLevel 5 (some 0) 0 1 =
      (preorderRows threeLevel 5 (some 0) 0).filter (fun r => decide ((r.level : ℤ) ≤ 1))) ∧
    ((rowsOf threeLevel 5 (some 0) 0 1).map (fun r => (r.name, r.level)) =
      [("root", 0), ("c1", 1), ("c2", 1)]) :=
  ⟨by decide, c8_depth_limited_rendering threeLevel 5 (some 0) 0 1 (by decide), by decide⟩

/-- Claim C9 (confirmed): a silent profiler run writes nothing to the sink,
and its report string coincides with the one produced by a verbose
profiler driven through the same operations with the same clock readings. -/
theorem c9_silent_matches_verbose (ops : List Op) (v : ℤ) :
    (runOps ops (Profiler.init false)).out = [] ∧
    (runOps ops (Profiler.init false)).get_profile_string v =
      (runOps ops (Profiler.init true)).get_profile_string v := by
  constructor
  · exact runOps_out_silent ops (Profiler.init false) rfl
  · exact get_profile_string_congr
      (runOps_nav_congr ops (Profiler.init false) (Profiler.init true) rfl)
      (by rw [runOps_indent, runOps_indent]; rfl) v

/-- Claim C10 (confirmed): as long as no start has been issued, the root
stays null, and get_profile_string — which in C++ dereferences that null
root — is undefined (modelled as none); a report is well-defined only
after at least one start call. -/
theorem c10_report_undefined_before_start (ops : List Op) (b : Bool) (v : ℤ)
    (h : ∀ op ∈ ops, op.isStart = false) :
    (runOps ops (Profiler.init b)).nav.root = none ∧
    (runOps ops (Profiler.init b)).get_profile_string v = none := by
  obtain ⟨hroot, _⟩ := runOps_no_start_nav ops (Profiler.init b) h rfl rfl
  refine ⟨hroot, ?_⟩
  unfold Profiler.get_profile_string
  rw [hroot]

/-- Witness for C10 on a run consisting of one stop. -/
theorem c10_witness :
    (∀ op ∈ [Op.stop "a" 1 1], op.isStart = false) ∧
    ((runOps [Op.stop "a" 1 1] (Profiler.init true)).nav.root = none ∧
     (runOps [Op.stop "a" 1 1] (Profiler.init true)).get_profile_string 99 = none) :=
  ⟨by decide, c10_report_undefined_before_start [Op.stop "a" 1 1] true 99 (by decide)⟩

end SimpleProfiler
